import Mathlib

/-!
Verification of the xrypton API server core (identity, nonce store, DNS
federation mapping, WoT certification routes) against its specification.

The Rust sources are shallowly embedded: pure functions are translated
directly; database tables become explicit lists threaded through the
functions; network/crypto/clock effects become explicit oracle inputs.
Strings are Lean `String`s and byte buffers are `List Nat`.
-/

namespace Xrypton


/-- Application error kinds, from `api/src/error.rs` (`AppError`). -/
inductive AppError where
  | Unauthorized (msg : String)
  | NotFound (msg : String)
  | Conflict (msg : String)
  | BadRequest (msg : String)
  | Forbidden (msg : String)
  | PayloadTooLarge (msg : String)
  | BadGateway (msg : String)
  | Internal (msg : String)
deriving DecidableEq, Repr

/-- HTTP status mapping from `impl IntoResponse for AppError` in `api/src/error.rs`. -/
def AppError.statusCode : AppError → Nat
  | .Unauthorized _ => 401
  | .NotFound _ => 404
  | .Conflict _ => 409
  | .BadRequest _ => 400
  | .Forbidden _ => 403
  | .PayloadTooLarge _ => 413
  | .BadGateway _ => 502
  | .Internal _ => 500

/-! ## UserId model (`api/src/types.rs`) -/

/-- Character predicate of `validate_local_part`:
`c.is_ascii_alphanumeric() || matches!(c, '_' | '.' | '+' | '-')`. -/
def isLocalChar (c : Char) : Bool :=
  (c.isUpper || c.isLower || c.isDigit) || (c = '_' || c = '.' || c = '+' || c = '-')

/-- Two consecutive dots somewhere in the character list; models Rust
`s.contains("..")` (substring search for the two-character pattern). -/
def hasDoubleDot : List Char → Bool
  | [] => false
  | [_] => false
  | c₁ :: c₂ :: rest => (c₁ = '.' && c₂ = '.') || hasDoubleDot (c₂ :: rest)

/-- ASCII lowercasing of a character list (Rust `to_ascii_lowercase`). -/
def asciiLower (cs : List Char) : List Char := cs.map Char.toLower

/-- Models `validate_local_part` from `api/src/types.rs`. -/
def validateLocalPart (s : String) : Except String Unit :=
  if s.data = [] then
    .error "user ID must not be empty"
  else if s.data.all isLocalChar = false then
    .error "user ID contains invalid characters"
  else if s.data.head? = some '.' ∨ s.data.getLast? = some '.' then
    .error "user ID must not start or end with a dot"
  else if hasDoubleDot s.data then
    .error "user ID must not contain consecutive dots"
  else if asciiLower s.data = "root".data ∨ asciiLower s.data = "admin".data then
    .error "this user ID is reserved"
  else
    .ok ()

/-- Does the string contain an at sign (Rust `s.contains('@')`). -/
def containsAt (s : String) : Bool := s.data.contains '@'

/-- Characters before the first at sign; models `s.split('@').next().unwrap()`,
which yields the whole string when no at sign is present. -/
def localPartOf (s : String) : String := ⟨s.data.takeWhile (· ≠ '@')⟩

/-- Characters after the first at sign, when present; models
`s.split_once('@')` restricted to the right component. -/
def domainOf (s : String) : Option String :=
  if containsAt s then some ⟨(s.data.dropWhile (· ≠ '@')).drop 1⟩ else none

namespace UserId

/-- Models `UserId::validate_local`. -/
def validateLocal (s : String) : Except String String :=
  if containsAt s then .error "local user ID must not contain '@'"
  else do
    validateLocalPart s
    .ok s

/-- Models `UserId::validate_full`. -/
def validateFull (s : String) : Except String String :=
  if s.data = [] then .error "user ID must not be empty"
  else do
    validateLocalPart (localPartOf s)
    .ok s

/-- Models `UserId::new_local`. -/
def newLocal (l d : String) : Except String String := do
  validateLocalPart l
  .ok (l ++ "@" ++ d)

/-- Models `UserId::resolve_local`. -/
def resolveLocal (id host : String) : Except String String :=
  if containsAt id then do
    validateLocalPart (localPartOf id)
    .ok id
  else
    newLocal id host

/-- Models `UserId::resolve`. -/
def resolve (id host : String) : Except String String :=
  if containsAt id then validateFull id
  else newLocal id host

end UserId

/-! ## Theorems for claims C6 and C9 -/

/-- Character class written after the spec's words: `[A-Za-z0-9._+-]`. -/
def specLocalChar (c : Char) : Bool :=
  (('A' ≤ c && c ≤ 'Z') || ('a' ≤ c && c ≤ 'z') || ('0' ≤ c && c ≤ '9')) ||
  (c = '.' || c = '_' || c = '+' || c = '-')

/-- Acceptance condition for a local part, written after the spec's words:
non-empty, all characters in the allowed class, no leading or trailing dot,
no consecutive dots, not case-insensitively `root` or `admin`. -/
def specLocalOk (s : String) : Bool :=
  !s.data.isEmpty && s.data.all specLocalChar &&
  !(s.data.head? = some '.') && !(s.data.getLast? = some '.') &&
  !hasDoubleDot s.data &&
  !(asciiLower s.data = asciiLower "root".data) &&
  !(asciiLower s.data = asciiLower "admin".data)

/-! ## DNS TXT resolver (`api/src/federation/dns.rs`) -/

/-- Result of DNS TXT mapping resolution (`ResolvedDomain`). -/
inductive ResolvedDomain where
  | Mapped (local_part : String) (domain : String)
  | Original
deriving DecidableEq, Repr

/-- Rust `entry.strip_prefix("user=")`. -/
def stripUserTag (e : String) : Option String :=
  if e.data.take 5 = "user=".data then some ⟨e.data.drop 5⟩ else none

/-- Rust `value.split_once('@')`. -/
def splitOnceAt (v : String) : Option (String × String) :=
  if containsAt v then
    some (⟨v.data.takeWhile (· ≠ '@')⟩, ⟨(v.data.dropWhile (· ≠ '@')).drop 1⟩)
  else none

/-- First loop of `find_user_mapping`: scan for an entry whose local part
equals the queried user id. -/
def findExact (uid : String) : List String → Option ResolvedDomain
  | [] => none
  | e :: rest =>
    match stripUserTag e with
    | none => findExact uid rest
    | some v =>
      match splitOnceAt v with
      | none => findExact uid rest
      | some (l, d) =>
        if l = uid then some (.Mapped l d) else findExact uid rest

/-- Second loop of `find_user_mapping`: scan for a wildcard `user=*@domain`
entry. -/
def findWildcard (uid : String) : List String → Option ResolvedDomain
  | [] => none
  | e :: rest =>
    match stripUserTag e with
    | none => findWildcard uid rest
    | some v =>
      match splitOnceAt v with
      | none => findWildcard uid rest
      | some (l, d) =>
        if l = "*" then some (.Mapped uid d) else findWildcard uid rest

/-- Models `find_user_mapping` from `api/src/federation/dns.rs`. -/
def findUserMapping (entries : List String) (uid : String) : ResolvedDomain :=
  match findExact uid entries with
  | some r => r
  | none =>
    match findWildcard uid entries with
    | some r => r
    | none => .Original

/-- Models `DnsTxtResolver::resolve`: the TXT entries are an explicit input; `none`
models a failed DNS lookup (cache miss plus query failure), in which case the
resolver falls back to `Original`. -/
def resolveDns (txt : Option (List String)) (uid : String) : ResolvedDomain :=
  match txt with
  | none => .Original
  | some entries => findUserMapping entries uid

/-- Entry parser shared with the spec-side description: an entry contributes
iff it starts with `user=` and its value splits on `'@'`. -/
def parseUserEntry (e : String) : Option (String × String) :=
  (stripUserTag e).bind splitOnceAt

/-- Exact-match extractor used by the spec-side description. -/
def exactDomainFor (uid : String) (e : String) : Option String :=
  (parseUserEntry e).bind fun p => if p.1 = uid then some p.2 else none

/-- Wildcard extractor used by the spec-side description. -/
def wildcardDomainFor (e : String) : Option String :=
  (parseUserEntry e).bind fun p => if p.1 = "*" then some p.2 else none

/-- Models `find_user_mapping` as the spec words it: prefer the first exact match,
otherwise fall back to the first wildcard entry, otherwise `Original`;
entries that fail to parse are ignored. -/
def findUserMappingSpec (entries : List String) (uid : String) : ResolvedDomain :=
  match entries.findSome? (exactDomainFor uid) with
  | some d => .Mapped uid d
  | none =>
    match entries.findSome? wildcardDomainFor with
    | some d => .Mapped uid d
    | none => .Original

/-- The fragment of `verify_or_fetch_external_user`
(`api/src/federation/verify.rs`) that destructures the DNS resolution result
and rejects when the resolved local part differs from the original. -/
def dnsResolveStep (resolved : ResolvedDomain) (origLocal origDomain : String) :
    Except AppError (String × String) :=
  let p := match resolved with
    | .Mapped l d => (l, d)
    | .Original => (origLocal, origDomain)
  if p.1 ≠ origLocal then
    .error (.Unauthorized
      ("DNS resolved user ID mismatch: expected " ++ origLocal ++ ", got " ++ p.1))
  else
    .ok p

/-! ## Nonce store (`api/src/db/nonces.rs`) -/

/-- Models `NonceType` from `api/src/db/nonces.rs`. -/
inductive NonceType where
  | Auth
  | Qr
deriving DecidableEq, Repr

/-- Models `NonceType::as_str`. -/
def NonceType.asStr : NonceType → String
  | .Auth => "auth"
  | .Qr => "qr"

/-- One row of the `nonces` table. -/
structure NonceRow where
  nonce_type : String
  nonce_value : String
  user_id : String
  expires_at : Int
deriving DecidableEq, Repr

/-- Does the table hold a row for key `(nonce_type, nonce_value)` — the unique
constraint that `ON CONFLICT (nonce_type, nonce_value) DO NOTHING` fires on. -/
def hasNonce (rows : List NonceRow) (t v : String) : Bool :=
  rows.any fun r => r.nonce_type = t && r.nonce_value = v

/-- Models `try_use_nonce`: `INSERT … ON CONFLICT (nonce_type, nonce_value) DO
NOTHING`, reporting whether a row was inserted. Returns the flag together
with the updated table. -/
def tryUseNonce (rows : List NonceRow) (nt : NonceType) (v u : String)
    (e : Int) : Bool × List NonceRow :=
  if hasNonce rows nt.asStr v then (false, rows)
  else (true, rows ++ [⟨nt.asStr, v, u, e⟩])

/-- Models `delete_expired_nonces`: removes rows with `expires_at < now`. -/
def deleteExpiredNonces (rows : List NonceRow) (now : Int) : List NonceRow :=
  rows.filter fun r => !(r.expires_at < now : Bool)

/-- One `try_use_nonce` call in a trace. -/
structure TryUseCall where
  nonce_type : NonceType
  nonce_value : String
  user_id : String
  expires_at : Int

/-- Run a sequence of `try_use_nonce` calls against the table, collecting the
returned flags in order. -/
def runTryUses (rows : List NonceRow) : List TryUseCall → List Bool
  | [] => []
  | c :: cs =>
    (tryUseNonce rows c.nonce_type c.nonce_value c.user_id c.expires_at).1 ::
      runTryUses
        (tryUseNonce rows c.nonce_type c.nonce_value c.user_id c.expires_at).2 cs

/-- Number of calls in the trace for key `(t, v)` that returned true. -/
def trueCountFor (rows : List NonceRow) (calls : List TryUseCall)
    (t : NonceType) (v : String) : Nat :=
  (calls.zip (runTryUses rows calls)).countP fun p =>
    p.1.nonce_type = t && p.1.nonce_value = v && p.2

/-! ## JSON bodies and federation-proxy id qualification
(`api/src/routes/message.rs` and `crypton-api/src/routes/chat.rs`) -/

/-- JSON values (`serde_json::Value`); objects are field lists looked up at
the first matching key. -/
inductive Json where
  | null
  | bool (b : Bool)
  | num (n : Int)
  | str (s : String)
  | arr (items : List Json)
  | obj (fields : List (String × Json))

/-- First-match lookup in an object's field list. -/
def getField : List (String × Json) → String → Option Json
  | [], _ => none
  | (k, v) :: rest, key => if k = key then some v else getField rest key

/-- Replace the first binding of `key`, appending when absent (the semantics
of `serde_json`'s `IndexMut` on objects). -/
def setField : List (String × Json) → String → Json → List (String × Json)
  | [], key, v => [(key, v)]
  | (k, w) :: rest, key, v =>
    if k = key then (k, v) :: rest else (k, w) :: setField rest key v

/-- Models `Value::get` on objects; `none` on all other value kinds. -/
def Json.get? : Json → String → Option Json
  | .obj fields, key => getField fields key
  | _, _ => none

/-- Field assignment on objects; other value kinds are left unchanged (the
handlers only assign under a successful `get`). -/
def Json.set : Json → String → Json → Json
  | .obj fields, key, v => .obj (setField fields key v)
  | j, _, _ => j

/-- The `qualify` closure of `qualify_user_ids_in_chat_response`. -/
def qualifyId (id domain : String) : String :=
  if containsAt id then id else id ++ "@" ++ domain

/-- Per-message rewrite performed inside `qualify_sender_ids_in_messages`. -/
def qualifyMessage (domain : String) (m : Json) : Json :=
  match m.get? "sender_id" with
  | some (.str s) =>
    if containsAt s then m else m.set "sender_id" (.str (s ++ "@" ++ domain))
  | _ => m

/-- Models `qualify_sender_ids_in_messages` from `api/src/routes/message.rs`. -/
def qualifySenderIdsInMessages (body : Json) (domain : String) : Json :=
  match body.get? "messages" with
  | some (.arr msgs) =>
    body.set "messages" (.arr (msgs.map (qualifyMessage domain)))
  | _ => body

/-- Per-member rewrite performed inside `qualify_user_ids_in_chat_response`. -/
def qualifyMember (domain : String) (m : Json) : Json :=
  match m.get? "user_id" with
  | some (.str uid) => m.set "user_id" (.str (qualifyId uid domain))
  | _ => m

/-- First statement of `qualify_user_ids_in_chat_response`: rewrite
`members[].user_id`. -/
def qualifyMembersPart (domain : String) (body : Json) : Json :=
  match body.get? "members" with
  | some (.arr ms) => body.set "members" (.arr (ms.map (qualifyMember domain)))
  | _ => body

/-- Second statement of `qualify_user_ids_in_chat_response`: rewrite
`group.created_by`. -/
def qualifyCreatedByPart (domain : String) (b1 : Json) : Json :=
  match b1.get? "group" with
  | some g =>
    match g.get? "created_by" with
    | some (.str cb) =>
      b1.set "group" (g.set "created_by" (.str (qualifyId cb domain)))
    | _ => b1
  | none => b1

/-- Models `qualify_user_ids_in_chat_response` from `crypton-api/src/routes/chat.rs`
(the chat-resource proxy handler of this repository): the members rewrite
followed by the created_by rewrite on the same body. -/
def qualifyUserIdsInChatResponse (body : Json) (domain : String) : Json :=
  qualifyCreatedByPart domain (qualifyMembersPart domain body)

/-- The `sender_id` slots of `body.messages[]`, for observing the rewrite. -/
def senderVals (body : Json) : List (Option Json) :=
  match body.get? "messages" with
  | some (.arr msgs) => msgs.map (fun m => m.get? "sender_id")
  | _ => []

/-- The `user_id` slots of `body.members[]`. -/
def memberVals (body : Json) : List (Option Json) :=
  match body.get? "members" with
  | some (.arr ms) => ms.map (fun m => m.get? "user_id")
  | _ => []

/-- The `group.created_by` slot. -/
def createdByVal (body : Json) : Option Json :=
  match body.get? "group" with
  | some g => g.get? "created_by"
  | none => none

/-- What the spec prescribes for one id slot: a bare string id gets
`@domain` appended, a qualified string id is kept, anything else is left
alone. -/
def specQualify (domain : String) : Option Json → Option Json
  | some (.str s) => some (.str (qualifyId s domain))
  | other => other

/-! ## Authenticator timestamp window (`api/src/auth/mod.rs`) -/

/-- Models `AuthNonce`: legacy single-string form or structured `{random, time}`. -/
inductive AuthNonce where
  | legacy (value : String)
  | structured (random : String) (time : String)

/-- Models `AuthNonce::replay_key`. -/
def AuthNonce.replayKey : AuthNonce → String
  | .legacy v => v
  | .structured r _ => r

/-- Models `AuthNonce::timestamp`. -/
def AuthNonce.timestamp : AuthNonce → String
  | .legacy v => v
  | .structured _ t => t

/-- Models `validate_nonce_timestamp`: the RFC3339 parser is an oracle argument
mapping the timestamp string to epoch seconds (its error text is abstracted
to a fixed message). -/
def validateNonceTimestamp (parseT : String → Option Int) (now : Int)
    (nonce : AuthNonce) : Except AppError Unit :=
  match parseT nonce.timestamp with
  | none => .error (.Unauthorized "invalid nonce timestamp")
  | some t =>
    if (now - t).natAbs > 3600 then
      .error (.Unauthorized "nonce timestamp out of range")
    else .ok ()

/-! ## WoT signature ingress (`api/src/routes/keys.rs`, `post_signature`) -/

/-- Models `SIGNATURE_MAX_BYTES`. -/
def signatureMaxBytes : Nat := 16 * 1024

/-- Models `QR_NONCE_WINDOW_SECONDS`. -/
def qrNonceWindowSeconds : Nat := 5 * 60

/-- One character of `validate_fingerprint`'s byte test:
`b.is_ascii_hexdigit() && !b.is_ascii_lowercase()`. -/
def isHexNoLower (c : Char) : Bool :=
  (c.isDigit || ('A' ≤ c && c ≤ 'F') || ('a' ≤ c && c ≤ 'f')) &&
    !('a' ≤ c && c ≤ 'z')

/-- Models `validate_fingerprint`: length in `[40, 128]`, even, all uppercase hex.
Byte length and byte tests coincide with character ones here because any
non-ASCII byte fails the hex-digit test. -/
def validateFingerprint (fp : String) : Except AppError Unit :=
  let valid := (40 ≤ fp.data.length && fp.data.length ≤ 128) &&
    fp.data.length % 2 = 0 && fp.data.all isHexNoLower
  if valid then .ok () else .error (.BadRequest "invalid fingerprint format")

/-- Models `to_hex` from `api/src/routes/keys.rs` (lowercase hex of a byte slice;
bytes are `Nat`s below 256, so `b >> 4` is `b / 16` and `b & 0x0f` is
`b % 16`). -/
def toHex (data : List Nat) : String :=
  ⟨data.flatMap fun b =>
    ["0123456789abcdef".data.getD (b / 16 % 16) '0',
     "0123456789abcdef".data.getD (b % 16) '0']⟩

/-- Models `CertificationSignatureInfo` from `common/src/keys.rs`. -/
structure CertInfo where
  issuer_fingerprint : String
  created_at : Int
  is_certification : Bool
deriving DecidableEq, Repr

/-- The slice of `PublicKeys` that `post_signature` consumes: the parsed
key's primary fingerprint. -/
structure PKeys where
  primary_fingerprint : String
deriving DecidableEq, Repr

/-- A `users` table row as `post_signature` sees it. -/
structure UserRow where
  id : String
  signing_public_key : String
  primary_key_fingerprint : String
deriving DecidableEq, Repr

/-- The authenticated principal (`AuthenticatedUser` in `api/src/auth`). -/
structure AuthenticatedUser where
  user_id : String
  primary_key_fingerprint : String
  signing_public_key : String
deriving DecidableEq, Repr

/-- Models `PostSignatureBody`. -/
structure PostSigBody where
  signature_b64 : String
  signature_type : String
  hash_algo : String
  qr_random : String
  qr_time : String
deriving DecidableEq, Repr

/-- Models `PostSignatureResponse` (timestamps as epoch seconds). -/
structure PostSigResponse where
  signature_id : String
  target_fingerprint : String
  signer_fingerprint : String
  received_at : Int
deriving DecidableEq, Repr

/-- Effects and library calls of `post_signature`, passed in explicitly: the
clock, the UUID and RFC3339 parsers, base64, the PGP library entry points,
the user lookup, SHA-256, the generated signature id, the nonce table and
the set of already-stored signature hashes. -/
structure PostSigEnv where
  now : Int
  parseUuid : String → Option String
  parseTime : String → Option Int
  b64decode : String → Option (List Nat)
  parseCertInfo : List Nat → Except String CertInfo
  tryFromKeys : String → Except String PKeys
  verifyCert : String → String → List Nat → Except String Bool
  getUserByFp : String → Option UserRow
  sha256 : List Nat → List Nat
  newSigId : String
  nonces : List NonceRow
  wotHashes : List String

/-- Lift an `Option` to the route's error type (`ok_or_else` / `map_err`). -/
def orErr {α : Type} (o : Option α) (e : AppError) : Except AppError α :=
  match o with
  | some a => .ok a
  | none => .error e

/-- Re-tag a library error (`map_err`). -/
def reErr {α : Type} (r : Except String α) (f : String → AppError) :
    Except AppError α :=
  match r with
  | .ok a => .ok a
  | .error m => .error (f m)

/-- Models `post_signature` from `api/src/routes/keys.rs`, with its checks in source
order. -/
def postSignature (env : PostSigEnv) (fingerprint : String)
    (auth : AuthenticatedUser) (body : PostSigBody) :
    Except AppError PostSigResponse := do
  let _ ← validateFingerprint fingerprint
  if body.signature_type ≠ "certification" then
    throw (AppError.BadRequest "signature_type must be certification")
  if body.hash_algo ≠ "sha256" then
    throw (AppError.BadRequest "hash_algo must be sha256")
  let nonceUuid ← orErr (env.parseUuid body.qr_random)
    (.BadRequest "invalid qr_nonce.random")
  let nonceTime ← orErr (env.parseTime body.qr_time)
    (.BadRequest "invalid qr_nonce.time")
  if (env.now - nonceTime).natAbs > qrNonceWindowSeconds then
    throw (AppError.BadRequest "qr_nonce timestamp out of range")
  let raw ← orErr (env.b64decode body.signature_b64)
    (.BadRequest "invalid base64 signature")
  if raw.length > signatureMaxBytes then
    throw (AppError.PayloadTooLarge "signature payload too large")
  let info ← reErr (env.parseCertInfo raw)
    (fun e => .BadRequest ("invalid signature packet: " ++ e))
  if info.is_certification = false then
    throw (AppError.BadRequest "signature is not certification type")
  let signerKeys ← reErr (env.tryFromKeys auth.signing_public_key)
    (fun e => .Unauthorized ("invalid signer key: " ++ e))
  if signerKeys.primary_fingerprint ≠ auth.primary_key_fingerprint then
    throw (AppError.Forbidden "authenticated signer fingerprint mismatch")
  if signerKeys.primary_fingerprint = fingerprint then
    throw (AppError.BadRequest "self-signature is not allowed")
  let targetUser ← orErr (env.getUserByFp fingerprint)
    (.NotFound "target key not found")
  let valid ← reErr
    (env.verifyCert auth.signing_public_key targetUser.signing_public_key raw)
    (fun e => .BadRequest ("signature verification failed: " ++ e))
  if valid = false then
    throw (AppError.BadRequest "signature does not certify target key")
  let nonceIsNew :=
    (tryUseNonce env.nonces .Qr nonceUuid auth.user_id (nonceTime + 300)).1
  if nonceIsNew = false then
    throw (AppError.Conflict "qr_nonce already used")
  let signatureHash := "sha256:" ++ toHex (env.sha256 raw)
  if env.wotHashes.contains signatureHash then
    throw (AppError.Conflict "signature already exists")
  pure { signature_id := env.newSigId
         target_fingerprint := fingerprint
         signer_fingerprint := signerKeys.primary_fingerprint
         received_at := env.now }

/-- Target-key path parameter of the concrete ingress run. -/
def c2Fp : String := "0123456789ABCDEF0123456789ABCDEF01234567"

/-- Primary fingerprint of the authenticated principal's signing key. -/
def c2AuthFp : String := "AAAAAAAAAAAAAAAAAAAAAAAAAAAAAAAAAAAAAAAA"

/-- Issuer fingerprint declared inside the submitted signature packet —
deliberately different from the principal's fingerprint. -/
def c2IssuerFp : String := "BBBBBBBBBBBBBBBBBBBBBBBBBBBBBBBBBBBBBBBB"

/-- The authenticated principal of the concrete ingress run. -/
def c2Auth : AuthenticatedUser :=
  ⟨"alice@h.example", c2AuthFp, "ALICE-SIGNING-KEY"⟩

/-- The request body of the concrete ingress run. -/
def c2Body : PostSigBody :=
  ⟨"c2bytes", "certification", "sha256", "a2f1", "2026-01-01T00:00:00Z"⟩

/-- Parsed packet info of the concrete ingress run: a certification whose
declared issuer is `c2IssuerFp`. -/
def c2Info : CertInfo := ⟨c2IssuerFp, 0, true⟩

/-- Oracle environment of the concrete ingress run: all parses succeed, the
principal's key parses to `c2AuthFp`, verification succeeds, the nonce is
fresh and the hash is new. -/
def c2Env : PostSigEnv where
  now := 0
  parseUuid := fun s => some s
  parseTime := fun _ => some 0
  b64decode := fun _ => some [1, 2]
  parseCertInfo := fun _ => .ok c2Info
  tryFromKeys := fun _ => .ok ⟨c2AuthFp⟩
  verifyCert := fun _ _ _ => .ok true
  getUserByFp := fun f => some ⟨"bob@h.example", "BOB-KEY", f⟩
  sha256 := fun _ => [0]
  newSigId := "sig_c2"
  nonces := []
  wotHashes := []

/-- Oracle environment for the concrete out-of-window ingress request. -/
def c5Env : PostSigEnv where
  now := 1000
  parseUuid := fun s => some s
  parseTime := fun _ => some 0
  b64decode := fun _ => none
  parseCertInfo := fun _ => .error "unused"
  tryFromKeys := fun _ => .error "unused"
  verifyCert := fun _ _ _ => .error "unused"
  getUserByFp := fun _ => none
  sha256 := fun _ => []
  newSigId := "sig_c5"
  nonces := []
  wotHashes := []

/-! ## WoT graph read (`api/src/routes/keys.rs`, `get_signatures`, local
branch, with `api/src/db/wot.rs` and `api/src/db/deleted_users.rs`) -/

/-- Models `EdgeDirection` from `api/src/db/wot.rs`. -/
inductive EdgeDirection where
  | inbound
  | outbound
  | both
deriving DecidableEq, Repr

/-- A `wot_signatures` row (`WotSignatureRow`), timestamps as epoch seconds. -/
structure WotEdge where
  id : String
  target_fingerprint : String
  signer_fingerprint : String
  signature_b64 : String
  signature_hash : String
  received_at : Int
  revoked : Bool
deriving DecidableEq, Repr

/-- The database tables `get_signatures` reads: the WoT edges, the users
table and the tombstoned primary fingerprints. -/
structure WotDb where
  edges : List WotEdge
  users : List UserRow
  deleted : List String

/-- The direction condition of `get_edges_for_frontier`'s SQL `WHERE`
clause, also re-used as the handler's `is_relevant` check. -/
def edgeTouches (dir : EdgeDirection) (frontier : List String)
    (e : WotEdge) : Bool :=
  match dir with
  | .inbound => frontier.contains e.target_fingerprint
  | .outbound => frontier.contains e.signer_fingerprint
  | .both =>
    frontier.contains e.target_fingerprint ||
      frontier.contains e.signer_fingerprint

/-- Models `get_edges_for_frontier`: rows of the edge table touching the frontier
(row order is modelled as table order; the SQL `ORDER BY received_at` only
permutes rows). -/
def getEdgesForFrontier (edges : List WotEdge) (frontier : List String)
    (dir : EdgeDirection) : List WotEdge :=
  if frontier.isEmpty then [] else edges.filter (edgeTouches dir frontier)

/-- Models `get_users_by_fingerprints` followed by `users.get(fp)`: the map is
built last-row-wins, so the lookup is the last users row carrying the
fingerprint. -/
def lookupUserId (users : List UserRow) (fp : String) : Option String :=
  ((users.filter fun u => u.primary_key_fingerprint = fp).getLast?).map (·.id)

/-- Models `get_deleted_fingerprints`: tombstone rows whose fingerprint is among the
queried ones. -/
def getDeletedFingerprints (deleted : List String) (fps : List String) :
    List String :=
  deleted.filter fun d => fps.contains d

/-- Models `SignatureNodeResponse`. -/
structure SigNodeResp where
  fingerprint : String
  user_id : Option String
  revoked : Bool
deriving DecidableEq, Repr

/-- Models `SignatureEdgeResponse`. -/
structure SigEdgeResp where
  signature_id : String
  from_fingerprint : String
  to_fingerprint : String
  signature_b64 : String
  signature_hash : String
  received_at : Int
  revoked : Bool
deriving DecidableEq, Repr

/-- Models `LimitsApplied`. -/
structure LimitsApplied where
  depth_capped : Bool
  node_capped : Bool
  edge_capped : Bool
  time_budget_ms : Nat
deriving DecidableEq, Repr

/-- Models `SignatureMeta` (`server_time` and `data_freshness_sec`, both raw clock
readings, are omitted). -/
structure SigMeta where
  truncated : Bool
  next_cursor : Option String
  limits_applied : LimitsApplied
deriving DecidableEq, Repr

/-- Models `SignatureQueryEcho`. -/
structure SigQueryEcho where
  max_depth : Nat
  max_nodes : Nat
  max_edges : Nat
  direction : String
deriving DecidableEq, Repr

/-- Models `SignatureGraphResponse`. -/
structure SigGraphResponse where
  root_fingerprint : String
  query : SigQueryEcho
  nodes : List SigNodeResp
  edges : List SigEdgeResp
  meta : SigMeta
deriving DecidableEq, Repr

/-- Models `SignatureQuery` (the optional query parameters). -/
structure SignatureQuery where
  max_depth : Option Nat
  max_nodes : Option Nat
  max_edges : Option Nat
  direction : Option String
deriving DecidableEq, Repr

/-- Models `DEFAULT_MAX_DEPTH`. -/
def defaultMaxDepth : Nat := 2

/-- Models `MAX_MAX_DEPTH`. -/
def maxMaxDepth : Nat := 4

/-- Models `DEFAULT_MAX_NODES`. -/
def defaultMaxNodes : Nat := 200

/-- Models `MAX_MAX_NODES`. -/
def maxMaxNodes : Nat := 1000

/-- Models `DEFAULT_MAX_EDGES`. -/
def defaultMaxEdges : Nat := 500

/-- Models `MAX_MAX_EDGES`. -/
def maxMaxEdges : Nat := 3000

/-- Models `TIME_BUDGET_MS`. -/
def timeBudgetMs : Nat := 1200

/-- Rust `x.clamp(lo, hi)`. -/
def clampNat (x lo hi : Nat) : Nat :=
  if x < lo then lo else if x > hi then hi else x

/-- The handler's `direction` string match. -/
def parseDirection (s : String) : Option EdgeDirection :=
  if s = "inbound" then some .inbound
  else if s = "outbound" then some .outbound
  else if s = "both" then some .both
  else none

/-- The handler's `direction_echo` match. -/
def directionEcho : EdgeDirection → String
  | .inbound => "inbound"
  | .outbound => "outbound"
  | .both => "both"

/-- Models `HashSet::insert` on a set modelled as a duplicate-free list in
insertion order. -/
def candInsert (cands : List String) (fp : String) : List String :=
  if cands.contains fp then cands else cands ++ [fp]

/-- Candidate-insertion step of the edge loop's `match direction` arm. -/
def nextCandsOf (dir : EdgeDirection) (frontier : List String) (e : WotEdge)
    (cands : List String) : List String :=
  match dir with
  | .inbound => candInsert cands e.signer_fingerprint
  | .outbound => candInsert cands e.target_fingerprint
  | .both =>
    let cands1 := if frontier.contains e.target_fingerprint then
      candInsert cands e.signer_fingerprint else cands
    if frontier.contains e.signer_fingerprint then
      candInsert cands1 e.target_fingerprint else cands1

/-- Mutable state of the `for edge in edges` loop. -/
structure EdgeLoopState where
  edgeSeen : List String
  collected : List WotEdge
  cands : List String
  capped : Bool

/-- The `for edge in edges` loop of `get_signatures`: skip self-signatures,
skip irrelevant or already-seen edges, stop at the edge cap, otherwise
record the edge and derive next-frontier candidates. -/
def edgeLoop (maxEdges : Nat) (dir : EdgeDirection) (frontier : List String) :
    List WotEdge → EdgeLoopState → EdgeLoopState
  | [], st => st
  | e :: rest, st =>
    if e.signer_fingerprint = e.target_fingerprint then
      edgeLoop maxEdges dir frontier rest st
    else if !(edgeTouches dir frontier e) || st.edgeSeen.contains e.id then
      edgeLoop maxEdges dir frontier rest st
    else if st.collected.length ≥ maxEdges then
      { st with capped := true }
    else
      edgeLoop maxEdges dir frontier rest
        { st with
          edgeSeen := st.edgeSeen ++ [e.id]
          cands := nextCandsOf dir frontier e st.cands
          collected := st.collected ++ [e] }

/-- Mutable state of the `for fp in next_candidates` loop. -/
structure CandLoopState where
  visited : List String
  nextFrontier : List String
  capped : Bool

/-- The `for fp in next_candidates` loop: skip visited nodes, stop at the
node cap, otherwise admit the node into the visited set and next frontier. -/
def candLoop (maxNodes : Nat) : List String → CandLoopState → CandLoopState
  | [], st => st
  | fp :: rest, st =>
    if st.visited.contains fp then candLoop maxNodes rest st
    else if st.visited.length ≥ maxNodes then { st with capped := true }
    else candLoop maxNodes rest
      { st with
        visited := st.visited ++ [fp]
        nextFrontier := st.nextFrontier ++ [fp] }

/-- Mutable state of the BFS `while` loop. `budgetHit` records whether any
wall-clock check the code performed came back expired; `checkIdx` counts
those checks so that the clock can be an arbitrary oracle `Nat → Bool`. -/
structure BfsState where
  visited : List String
  frontier : List String
  edgeSeen : List String
  collected : List WotEdge
  nodeCapped : Bool
  edgeCapped : Bool
  truncated : Bool
  budgetHit : Bool
  lastDepth : Nat
  checkIdx : Nat

/-- The BFS `while last_depth < max_depth && !frontier.is_empty()` loop; the
fuel argument is `max_depth - last_depth`, which the loop condition keeps
positive. -/
def bfsLoop (edges : List WotEdge) (dir : EdgeDirection)
    (maxNodes maxEdges : Nat) (elapsed : Nat → Bool) :
    Nat → BfsState → BfsState
  | 0, st => st
  | fuel + 1, st =>
    if st.frontier.isEmpty then st
    else if elapsed st.checkIdx then
      { st with
        truncated := true
        budgetHit := true
        checkIdx := st.checkIdx + 1 }
    else
      let st1 := { st with
        checkIdx := st.checkIdx + 1
        lastDepth := st.lastDepth + 1 }
      let el := edgeLoop maxEdges dir st.frontier
        (getEdgesForFrontier edges st.frontier dir)
        ⟨st1.edgeSeen, st1.collected, [], false⟩
      if el.capped then
        { st1 with
          edgeSeen := el.edgeSeen
          collected := el.collected
          edgeCapped := true
          truncated := true }
      else
        let cl := candLoop maxNodes el.cands ⟨st1.visited, [], false⟩
        bfsLoop edges dir maxNodes maxEdges elapsed fuel
          { st1 with
            edgeSeen := el.edgeSeen
            collected := el.collected
            visited := cl.visited
            frontier := cl.nextFrontier
            nodeCapped := st1.nodeCapped || cl.capped
            truncated := st1.truncated || cl.capped }

/-- Ordered insertion, for modelling `sort_unstable`. -/
def insertStr (x : String) : List String → List String
  | [] => [x]
  | y :: ys => if x ≤ y then x :: y :: ys else y :: insertStr x ys

/-- Models `node_fingerprints.sort_unstable()` modelled as insertion sort. -/
def sortStrings : List String → List String
  | [] => []
  | x :: xs => insertStr x (sortStrings xs)

/-- Result of the local branch of `get_signatures`: the HTTP response plus
the run's observed budget expiry and the visited node set (internals the
theorems refer to). -/
structure LocalRunResult where
  response : SigGraphResponse
  budgetHit : Bool
  visitedFps : List String

/-- The body of `get_signatures`' local branch once the direction is known:
clamps, bounded BFS, tombstone filtering and response assembly. -/
def runLocal (db : WotDb) (fingerprint : String) (query : SignatureQuery)
    (elapsed : Nat → Bool) (direction : EdgeDirection) : LocalRunResult :=
  let maxDepth := clampNat (query.max_depth.getD defaultMaxDepth) 1 maxMaxDepth
  let maxNodes := clampNat (query.max_nodes.getD defaultMaxNodes) 1 maxMaxNodes
  let maxEdges := clampNat (query.max_edges.getD defaultMaxEdges) 1 maxMaxEdges
  let st := bfsLoop db.edges direction maxNodes maxEdges elapsed maxDepth
    ⟨[fingerprint], [fingerprint], [], [], false, false, false, false, 0, 0⟩
  let depthCapped := decide (st.lastDepth ≥ maxDepth) && !st.frontier.isEmpty
  let finalBudget := elapsed st.checkIdx
  let truncated := (st.truncated || depthCapped) || finalBudget
  let nodeFps := sortStrings st.visited
  let deletedFps := getDeletedFingerprints db.deleted nodeFps
  let nodes := (nodeFps.filter fun fp => !(deletedFps.contains fp)).map
    fun fp => SigNodeResp.mk fp (lookupUserId db.users fp) false
  let edges := (st.collected.filter fun e =>
      !(deletedFps.contains e.signer_fingerprint) &&
      !(deletedFps.contains e.target_fingerprint)).map
    fun e => SigEdgeResp.mk e.id e.signer_fingerprint e.target_fingerprint
      e.signature_b64 e.signature_hash e.received_at e.revoked
  { response :=
      { root_fingerprint := fingerprint
        query := ⟨maxDepth, maxNodes, maxEdges, directionEcho direction⟩
        nodes := nodes
        edges := edges
        meta :=
          { truncated := truncated
            next_cursor := none
            limits_applied :=
              ⟨depthCapped, st.nodeCapped, st.edgeCapped, timeBudgetMs⟩ } }
    budgetHit := st.budgetHit || finalBudget
    visitedFps := nodeFps }

/-- The local (non-proxied) branch of `get_signatures`: direction parse,
then the bounded traversal of `runLocal`. -/
def getSignaturesLocal (db : WotDb) (fingerprint : String)
    (query : SignatureQuery) (elapsed : Nat → Bool) :
    Except AppError LocalRunResult :=
  match parseDirection (query.direction.getD "inbound") with
  | none => .error (.BadRequest "invalid direction")
  | some direction => .ok (runLocal db fingerprint query elapsed direction)

/-- Per-edge neighbour contribution defining the certification graph's
adjacency in a given direction. -/
def edgeNbrs (dir : EdgeDirection) (s : List String) (e : WotEdge) :
    List String :=
  match dir with
  | .inbound =>
    if s.contains e.target_fingerprint then [e.signer_fingerprint] else []
  | .outbound =>
    if s.contains e.signer_fingerprint then [e.target_fingerprint] else []
  | .both =>
    (if s.contains e.target_fingerprint then [e.signer_fingerprint] else []) ++
      (if s.contains e.signer_fingerprint then [e.target_fingerprint] else [])

/-- All neighbours of a node set. -/
def neighborsOf (dir : EdgeDirection) (edges : List WotEdge)
    (s : List String) : List String :=
  edges.flatMap (edgeNbrs dir s)

/-- Nodes within `k` BFS layers of the root in the certification graph. -/
def ball (dir : EdgeDirection) (edges : List WotEdge) (root : String) :
    Nat → List String
  | 0 => [root]
  | k + 1 =>
    ball dir edges root k ++ neighborsOf dir edges (ball dir edges root k)

/-- Loop invariant of the BFS: node and edge budgets are respected, the
frontier is visited, every visited node is within `lastDepth` layers of the
root, and the truncation flag tracks the caps and the budget. -/
def BfsInv (dir : EdgeDirection) (edges0 : List WotEdge) (root : String)
    (mn me : Nat) (st : BfsState) : Prop :=
  st.visited.length ≤ mn ∧
  st.collected.length ≤ me ∧
  (∀ x ∈ st.frontier, x ∈ st.visited) ∧
  (∀ x ∈ st.visited, x ∈ ball dir edges0 root st.lastDepth) ∧
  st.truncated = ((st.nodeCapped || st.edgeCapped) || st.budgetHit)

/-- Root fingerprint of the concrete capped graph read. -/
def c8Root : String := "AAAAAAAAAAAAAAAAAAAAAAAAAAAAAAAAAAAAAAAA"

/-- Fingerprint of the tombstoned signer in the concrete capped graph read. -/
def c8X : String := "BBBBBBBBBBBBBBBBBBBBBBBBBBBBBBBBBBBBBBBB"

/-- Database of the concrete capped graph read: one certification edge from
the tombstoned `c8X` onto the root. -/
def c8Db : WotDb := ⟨[⟨"e1", c8Root, c8X, "sb", "sh", 0, false⟩], [], [c8X]⟩

/-- Query with `max_nodes = 1`, so the node cap keeps `c8X` out of the
visited set. -/
def c8Query : SignatureQuery := ⟨none, some 1, none, none⟩

theorem isLocalChar_eq_specLocalChar : isLocalChar = specLocalChar := by
  funext c
  simp only [isLocalChar, specLocalChar, Char.isUpper, Char.isLower, Char.isDigit,
    Char.le_def, ge_iff_le, Bool.or_assoc, Bool.or_comm, Bool.or_left_comm,
    show ('0').val = 48 from rfl, show ('9').val = 57 from rfl,
    show ('A').val = 65 from rfl, show ('Z').val = 90 from rfl,
    show ('a').val = 97 from rfl, show ('z').val = 122 from rfl]

/-- Claim C9, counterexample: `validate_full` accepts `"alice@"`, whose domain
part is empty, while the claim requires the domain part to contain at least
one character. -/
theorem c9_counterexample :
    UserId.validateFull "alice@" = .ok "alice@" ∧ domainOf "alice@" = some "" := by
  constructor <;> rfl

/-- Claim C9 (amended): the local part is accepted exactly under the spec's
stated conditions, and for a full id containing an at sign, acceptance
depends only on the local part — the domain part is not validated at all
(it may even be empty). -/
theorem c9_local_validation :
    (∀ s, (validateLocalPart s).isOk = specLocalOk s) ∧
    (∀ s, containsAt s = true →
      (UserId.validateFull s).isOk = (validateLocalPart (localPartOf s)).isOk) := by
  constructor
  · intro s
    have hroot : asciiLower "root".data = "root".data := rfl
    have hadmin : asciiLower "admin".data = "admin".data := rfl
    rw [validateLocalPart]
    split_ifs with h1 h2 h3 h4 h5
    · simp [specLocalOk, h1, Except.isOk, Except.toBool]
    · have : s.data.all specLocalChar = false := isLocalChar_eq_specLocalChar ▸ h2
      simp [specLocalOk, this, Except.isOk, Except.toBool]
    · rcases h3 with h3 | h3 <;> simp [specLocalOk, h3, Except.isOk, Except.toBool]
    · simp [specLocalOk, h4, Except.isOk, Except.toBool]
    · rcases h5 with h5 | h5 <;>
        simp [specLocalOk, hroot, hadmin, h5, Except.isOk, Except.toBool]
    · have hall : s.data.all specLocalChar = true := by
        rw [← isLocalChar_eq_specLocalChar]
        revert h2
        cases s.data.all isLocalChar <;> simp
      push_neg at h3 h5
      simp [specLocalOk, h1, hall, h3.1, h3.2, h4, hroot, hadmin, h5.1, h5.2,
        Except.isOk, Except.toBool]
  · intro s hs
    have hne : s.data ≠ [] := by
      intro h
      rw [containsAt, h] at hs
      simp at hs
    rw [UserId.validateFull, if_neg hne]
    cases h : validateLocalPart (localPartOf s) <;>
      simp [Except.isOk, Except.toBool, h, Bind.bind, Except.bind]

/-- Claim C6, counterexample: `"root@custom"` is an already-qualified id, but
neither `resolve_local` nor `resolve` returns it unchanged — both reject it
because its local part is a reserved name. -/
theorem c6_counterexample :
    UserId.resolve "root@custom" "h" = .error "this user ID is reserved" ∧
    UserId.resolveLocal "root@custom" "h" = .error "this user ID is reserved" ∧
    UserId.resolve "root@custom" "h" ≠ .ok "root@custom" := by
  refine ⟨rfl, rfl, ?_⟩
  rw [show UserId.resolve "root@custom" "h" =
    Except.error "this user ID is reserved" from rfl]
  exact fun h => Except.noConfusion h

/-- Claim C6 (amended): for every valid bare local id, `resolve_local` appends
`@host`; and for every already-qualified id whose local part passes
validation, `resolve_local` and `resolve` return it unchanged (qualified ids
with invalid local parts are rejected instead). -/
theorem c6_resolution :
    (∀ id host, containsAt id = false → (validateLocalPart id).isOk = true →
      UserId.resolveLocal id host = .ok (id ++ "@" ++ host)) ∧
    (∀ id host, containsAt id = true →
      (validateLocalPart (localPartOf id)).isOk = true →
      UserId.resolveLocal id host = .ok id ∧ UserId.resolve id host = .ok id) := by
  constructor
  · intro id host hat hok
    cases h : validateLocalPart id with
    | error e => rw [h] at hok; simp [Except.isOk, Except.toBool] at hok
    | ok u =>
      rw [UserId.resolveLocal, if_neg (by simp [hat]), UserId.newLocal]
      simp [h, Bind.bind, Except.bind]
  · intro id host hat hok
    cases h : validateLocalPart (localPartOf id) with
    | error e => rw [h] at hok; simp [Except.isOk, Except.toBool] at hok
    | ok u =>
      have hne : id.data ≠ [] := by
        intro hnil
        rw [containsAt, hnil] at hat
        simp at hat
      refine ⟨?_, ?_⟩
      · rw [UserId.resolveLocal, if_pos hat]
        simp [h, Bind.bind, Except.bind]
      · rw [UserId.resolve, if_pos hat, UserId.validateFull, if_neg hne]
        simp [h, Bind.bind, Except.bind]

/-- Claim C6 witness: the amended theorem applied at `alice`/`h` and
`alice@custom`/`h`. -/
theorem c6_resolution_witness :
    (containsAt "alice" = false ∧ (validateLocalPart "alice").isOk = true ∧
      UserId.resolveLocal "alice" "h" = .ok "alice@h") ∧
    (containsAt "alice@custom" = true ∧
      (validateLocalPart (localPartOf "alice@custom")).isOk = true ∧
      UserId.resolveLocal "alice@custom" "h" = .ok "alice@custom" ∧
      UserId.resolve "alice@custom" "h" = .ok "alice@custom") :=
  ⟨⟨by decide, by decide, c6_resolution.1 "alice" "h" (by decide) (by decide)⟩,
   ⟨by decide, by decide,
    (c6_resolution.2 "alice@custom" "h" (by decide) (by decide)).1,
    (c6_resolution.2 "alice@custom" "h" (by decide) (by decide)).2⟩⟩

theorem findExact_eq (uid : String) (entries : List String) :
    findExact uid entries =
      (entries.findSome? (exactDomainFor uid)).map (fun d => .Mapped uid d) := by
  induction entries with
  | nil => rfl
  | cons e rest ih =>
    rw [findExact, List.findSome?_cons]
    cases hs : stripUserTag e with
    | none =>
      simp only [exactDomainFor, parseUserEntry, hs, Option.none_bind]
      exact ih
    | some v =>
      cases hv : splitOnceAt v with
      | none =>
        simp only [exactDomainFor, parseUserEntry, hs, hv, Option.some_bind,
          Option.none_bind]
        exact ih
      | some p =>
        obtain ⟨l, d⟩ := p
        by_cases hl : l = uid
        · simp [exactDomainFor, parseUserEntry, hs, hv, hl]
        · simp only [exactDomainFor, parseUserEntry, hs, hv, Option.some_bind,
            if_neg hl]
          exact ih

theorem findWildcard_eq (uid : String) (entries : List String) :
    findWildcard uid entries =
      (entries.findSome? wildcardDomainFor).map (fun d => .Mapped uid d) := by
  induction entries with
  | nil => rfl
  | cons e rest ih =>
    rw [findWildcard, List.findSome?_cons]
    cases hs : stripUserTag e with
    | none =>
      simp only [wildcardDomainFor, parseUserEntry, hs, Option.none_bind]
      exact ih
    | some v =>
      cases hv : splitOnceAt v with
      | none =>
        simp only [wildcardDomainFor, parseUserEntry, hs, hv, Option.some_bind,
          Option.none_bind]
        exact ih
      | some p =>
        obtain ⟨l, d⟩ := p
        by_cases hl : l = "*"
        · simp [wildcardDomainFor, parseUserEntry, hs, hv, hl]
        · simp only [wildcardDomainFor, parseUserEntry, hs, hv, Option.some_bind,
            if_neg hl]
          exact ih

theorem findUserMapping_eq_spec (entries : List String) (uid : String) :
    findUserMapping entries uid = findUserMappingSpec entries uid := by
  rw [findUserMapping, findUserMappingSpec, findExact_eq, findWildcard_eq]
  cases entries.findSome? (exactDomainFor uid) with
  | some d => rfl
  | none =>
    cases entries.findSome? wildcardDomainFor with
    | some d => rfl
    | none => rfl

theorem findExact_filter (uid : String) (entries : List String) :
    findExact uid (entries.filter (fun e => (parseUserEntry e).isSome)) =
      findExact uid entries := by
  induction entries with
  | nil => rfl
  | cons e rest ih =>
    cases hs : stripUserTag e with
    | none =>
      have hp : (parseUserEntry e).isSome = false := by simp [parseUserEntry, hs]
      simp only [List.filter_cons, hp, Bool.false_eq_true, if_false]
      simp only [findExact, hs]
      exact ih
    | some v =>
      cases hv : splitOnceAt v with
      | none =>
        have hp : (parseUserEntry e).isSome = false := by
          simp [parseUserEntry, hs, hv]
        simp only [List.filter_cons, hp, Bool.false_eq_true, if_false]
        simp only [findExact, hs, hv]
        exact ih
      | some p =>
        obtain ⟨l, d⟩ := p
        have hp : (parseUserEntry e).isSome = true := by
          simp [parseUserEntry, hs, hv]
        simp only [List.filter_cons, hp, if_true]
        simp only [findExact, hs, hv]
        by_cases hl : l = uid
        · simp [hl]
        · simp only [if_neg hl]
          exact ih

theorem findWildcard_filter (uid : String) (entries : List String) :
    findWildcard uid (entries.filter (fun e => (parseUserEntry e).isSome)) =
      findWildcard uid entries := by
  induction entries with
  | nil => rfl
  | cons e rest ih =>
    cases hs : stripUserTag e with
    | none =>
      have hp : (parseUserEntry e).isSome = false := by simp [parseUserEntry, hs]
      simp only [List.filter_cons, hp, Bool.false_eq_true, if_false]
      simp only [findWildcard, hs]
      exact ih
    | some v =>
      cases hv : splitOnceAt v with
      | none =>
        have hp : (parseUserEntry e).isSome = false := by
          simp [parseUserEntry, hs, hv]
        simp only [List.filter_cons, hp, Bool.false_eq_true, if_false]
        simp only [findWildcard, hs, hv]
        exact ih
      | some p =>
        obtain ⟨l, d⟩ := p
        have hp : (parseUserEntry e).isSome = true := by
          simp [parseUserEntry, hs, hv]
        simp only [List.filter_cons, hp, if_true]
        simp only [findWildcard, hs, hv]
        by_cases hl : l = "*"
        · simp [hl]
        · simp only [if_neg hl]
          exact ih

/-- Claim C4: `find_user_mapping` prefers the exact match over any wildcard,
ignores entries that do not parse as `user=<local>@<domain>`, and returns
`Original` when neither an exact nor a wildcard entry matches; the resolver
also returns `Original` on DNS failure. -/
theorem c4_dns_mapping :
    (∀ entries uid, findUserMapping entries uid = findUserMappingSpec entries uid) ∧
    (∀ entries uid,
      findUserMapping (entries.filter (fun e => (parseUserEntry e).isSome)) uid =
        findUserMapping entries uid) ∧
    (∀ uid, resolveDns none uid = .Original) ∧
    (∀ entries uid, resolveDns (some entries) uid = findUserMapping entries uid) := by
  refine ⟨findUserMapping_eq_spec, ?_, fun _ => rfl, fun _ _ => rfl⟩
  intro entries uid
  rw [findUserMapping, findUserMapping, findExact_filter, findWildcard_filter]

/-- Claim C10: `find_user_mapping` never rewrites the local part — its result
is `Original` or `Mapped` with the queried user id — and therefore the
federation resolver's local-part-mismatch rejection branch can never be
taken. -/
theorem c10_no_local_rewrite :
    (∀ txt uid, resolveDns txt uid = .Original ∨
      ∃ d, resolveDns txt uid = .Mapped uid d) ∧
    (∀ txt uid origDomain,
      (dnsResolveStep (resolveDns txt uid) uid origDomain).isOk = true) := by
  have hshape : ∀ txt uid, resolveDns txt uid = .Original ∨
      ∃ d, resolveDns txt uid = .Mapped uid d := by
    intro txt uid
    cases txt with
    | none => exact Or.inl rfl
    | some entries =>
      rw [resolveDns, findUserMapping_eq_spec, findUserMappingSpec]
      cases entries.findSome? (exactDomainFor uid) with
      | some d => exact Or.inr ⟨d, rfl⟩
      | none =>
        cases entries.findSome? wildcardDomainFor with
        | some d => exact Or.inr ⟨d, rfl⟩
        | none => exact Or.inl rfl
  refine ⟨hshape, ?_⟩
  intro txt uid origDomain
  rcases hshape txt uid with h | ⟨d, h⟩ <;>
    simp [h, dnsResolveStep, Except.isOk, Except.toBool]

theorem hasNonce_tryUse (rows : List NonceRow) (nt : NonceType) (v u : String)
    (e : Int) : hasNonce (tryUseNonce rows nt v u e).2 nt.asStr v = true := by
  rw [tryUseNonce]
  by_cases h : hasNonce rows nt.asStr v = true
  · simp [h]
  · simp only [Bool.not_eq_true] at h
    simp only [h, Bool.false_eq_true, if_false]
    rw [hasNonce, List.any_append]
    simp

theorem hasNonce_mono (rows : List NonceRow) (nt : NonceType) (v u : String)
    (e : Int) (t' v' : String) (h : hasNonce rows t' v' = true) :
    hasNonce (tryUseNonce rows nt v u e).2 t' v' = true := by
  rw [tryUseNonce]
  by_cases hc : hasNonce rows nt.asStr v = true
  · simpa [hc]
  · simp only [Bool.not_eq_true] at hc
    rw [hasNonce] at h ⊢
    simp only [hc, if_false, Bool.false_eq_true, List.any_append]
    simp [h]

theorem trueCountFor_zero_of_hasNonce (t : NonceType) (v : String) :
    ∀ (calls : List TryUseCall) (rows : List NonceRow),
      hasNonce rows t.asStr v = true → trueCountFor rows calls t v = 0 := by
  intro calls
  induction calls with
  | nil => intro rows _; rfl
  | cons c cs ih =>
    intro rows h
    simp only [trueCountFor, runTryUses, List.zip_cons_cons, List.countP_cons]
    have hrest : trueCountFor (tryUseNonce rows c.nonce_type c.nonce_value
        c.user_id c.expires_at).2 cs t v = 0 :=
      ih _ (hasNonce_mono rows c.nonce_type c.nonce_value c.user_id
        c.expires_at t.asStr v h)
    simp only [trueCountFor] at hrest
    rw [hrest]
    by_cases hk : c.nonce_type = t ∧ c.nonce_value = v
    · have hfalse : (tryUseNonce rows c.nonce_type c.nonce_value c.user_id
          c.expires_at).1 = false := by
        rw [tryUseNonce, hk.1, hk.2, if_pos h]
      simp [hfalse]
    · have hne : (decide (c.nonce_type = t) && decide (c.nonce_value = v) &&
          (tryUseNonce rows c.nonce_type c.nonce_value c.user_id
            c.expires_at).1) = false := by
        rcases Decidable.not_and_iff_or_not.mp hk with hne | hne <;>
          simp [hne]
      simp [hne]

/-- Claim C1: over any sequence of `try_use_nonce` calls (no expiry sweep in
between), at most one call for a given `(type, value)` pair returns true, and
once the pair is present — in particular right after any call for it — every
later call for that pair returns false, regardless of the `user_id` and
`expires_at` arguments. -/
theorem c1_nonce_exactly_once :
    (∀ (rows : List NonceRow) (calls : List TryUseCall) (t : NonceType)
      (v : String), trueCountFor rows calls t v ≤ 1) ∧
    (∀ (rows : List NonceRow) (t : NonceType) (v u : String) (e : Int)
      (calls : List TryUseCall),
      trueCountFor (tryUseNonce rows t v u e).2 calls t v = 0) := by
  constructor
  · intro rows calls t v
    induction calls generalizing rows with
    | nil => simp [trueCountFor, runTryUses]
    | cons c cs ih =>
      simp only [trueCountFor, runTryUses, List.zip_cons_cons, List.countP_cons]
      simp only [trueCountFor] at ih
      by_cases hk : (decide (c.nonce_type = t) && decide (c.nonce_value = v) &&
          (tryUseNonce rows c.nonce_type c.nonce_value c.user_id
            c.expires_at).1) = true
      · simp only [Bool.and_eq_true, decide_eq_true_eq] at hk
        obtain ⟨⟨hkt, hkv⟩, hk1⟩ := hk
        subst hkt
        subst hkv
        have hzero : trueCountFor (tryUseNonce rows c.nonce_type c.nonce_value
            c.user_id c.expires_at).2 cs c.nonce_type c.nonce_value = 0 :=
          trueCountFor_zero_of_hasNonce c.nonce_type c.nonce_value cs _
            (hasNonce_tryUse rows c.nonce_type c.nonce_value c.user_id
              c.expires_at)
        simp only [trueCountFor] at hzero
        simp [hk1, hzero]
      · simp only [Bool.not_eq_true] at hk
        simp only [hk, Bool.false_eq_true, if_false, Nat.add_zero]
        exact ih _
  · intro rows t v u e calls
    exact trueCountFor_zero_of_hasNonce t v calls _
      (hasNonce_tryUse rows t v u e)

theorem getField_setField_self (fields : List (String × Json)) (k : String)
    (v : Json) : getField (setField fields k v) k = some v := by
  induction fields with
  | nil => simp [setField, getField]
  | cons f rest ih =>
    obtain ⟨k', w⟩ := f
    by_cases h : k' = k
    · simp [setField, getField, h]
    · simp [setField, getField, h, ih]

theorem getField_setField_ne (fields : List (String × Json)) (k k' : String)
    (v : Json) (h : ¬ k = k') :
    getField (setField fields k v) k' = getField fields k' := by
  induction fields with
  | nil => simp [setField, getField, h]
  | cons f rest ih =>
    obtain ⟨k'', w⟩ := f
    rw [setField]
    by_cases h2 : k'' = k
    · rw [if_pos h2, getField, getField]
      have h4 : ¬ k'' = k' := fun hh => h (h2.symm.trans hh)
      rw [if_neg h4, if_neg h4]
    · rw [if_neg h2, getField, getField]
      by_cases h3 : k'' = k'
      · rw [if_pos h3, if_pos h3]
      · rw [if_neg h3, if_neg h3, ih]

theorem Json.get?_set_self {j : Json} {k : String} {w : Json} (v : Json)
    (h : j.get? k = some w) : (j.set k v).get? k = some v := by
  cases j <;> simp [Json.get?, Json.set] at h ⊢
  exact getField_setField_self _ _ _

theorem Json.get?_set_ne (j : Json) (k k' : String) (v : Json)
    (h : ¬ k = k') : (j.set k v).get? k' = j.get? k' := by
  cases j <;> simp [Json.get?, Json.set]
  exact getField_setField_ne _ _ _ _ h

theorem qualifyMessage_sender (domain : String) (m : Json) :
    (qualifyMessage domain m).get? "sender_id" =
      specQualify domain (m.get? "sender_id") := by
  rw [qualifyMessage]
  cases hm : m.get? "sender_id" with
  | none => simp [specQualify, hm]
  | some w =>
    cases w with
    | str s =>
      by_cases hs : containsAt s = true
      · simp [hs, hm, specQualify, qualifyId]
      · simp only [Bool.not_eq_true] at hs
        simp [hs, Json.get?_set_self _ hm, specQualify, qualifyId]
    | null => simp [specQualify, hm]
    | bool b => simp [specQualify, hm]
    | num n => simp [specQualify, hm]
    | arr xs => simp [specQualify, hm]
    | obj fs => simp [specQualify, hm]

theorem qualifyMember_userId (domain : String) (m : Json) :
    (qualifyMember domain m).get? "user_id" =
      specQualify domain (m.get? "user_id") := by
  rw [qualifyMember]
  cases hm : m.get? "user_id" with
  | none => simp [specQualify, hm]
  | some w =>
    cases w with
    | str s => simp [hm, Json.get?_set_self _ hm, specQualify]
    | null => simp [specQualify, hm]
    | bool b => simp [specQualify, hm]
    | num n => simp [specQualify, hm]
    | arr xs => simp [specQualify, hm]
    | obj fs => simp [specQualify, hm]

theorem senderVals_qualify (body : Json) (domain : String) :
    senderVals (qualifySenderIdsInMessages body domain) =
      (senderVals body).map (specQualify domain) := by
  rw [qualifySenderIdsInMessages]
  cases hb : body.get? "messages" with
  | none => simp [senderVals, hb]
  | some w =>
    cases w with
    | arr msgs =>
      rw [senderVals, Json.get?_set_self _ hb]
      simp [senderVals, hb, qualifyMessage_sender, Function.comp]
    | null => simp [senderVals, hb]
    | bool b => simp [senderVals, hb]
    | num n => simp [senderVals, hb]
    | str s => simp [senderVals, hb]
    | obj fs => simp [senderVals, hb]

theorem memberVals_membersPart (body : Json) (domain : String) :
    memberVals (qualifyMembersPart domain body) =
      (memberVals body).map (specQualify domain) := by
  rw [qualifyMembersPart]
  cases hb : body.get? "members" with
  | none => simp [memberVals, hb]
  | some w =>
    cases w with
    | arr ms =>
      rw [memberVals, Json.get?_set_self _ hb]
      simp [memberVals, hb, qualifyMember_userId, Function.comp]
    | null => simp [memberVals, hb]
    | bool b => simp [memberVals, hb]
    | num n => simp [memberVals, hb]
    | str s => simp [memberVals, hb]
    | obj fs => simp [memberVals, hb]

theorem memberVals_createdByPart (b1 : Json) (domain : String) :
    memberVals (qualifyCreatedByPart domain b1) = memberVals b1 := by
  rw [qualifyCreatedByPart]
  cases hg : b1.get? "group" with
  | none => simp
  | some g =>
    cases hcb : g.get? "created_by" with
    | none => simp [hcb]
    | some w =>
      cases w with
      | str cb =>
        simp only [hcb]
        rw [memberVals, memberVals,
          Json.get?_set_ne _ "group" "members" _ (by decide)]
      | null => simp [hcb]
      | bool b => simp [hcb]
      | num n => simp [hcb]
      | arr xs => simp [hcb]
      | obj fs => simp [hcb]

theorem createdByVal_membersPart (body : Json) (domain : String) :
    createdByVal (qualifyMembersPart domain body) = createdByVal body := by
  rw [qualifyMembersPart]
  cases hb : body.get? "members" with
  | none => simp
  | some w =>
    cases w with
    | arr ms =>
      rw [createdByVal, createdByVal,
        Json.get?_set_ne _ "members" "group" _ (by decide)]
    | null => simp
    | bool b => simp
    | num n => simp
    | str s => simp
    | obj fs => simp

theorem createdByVal_createdByPart (b1 : Json) (domain : String) :
    createdByVal (qualifyCreatedByPart domain b1) =
      specQualify domain (createdByVal b1) := by
  rw [qualifyCreatedByPart]
  cases hg : b1.get? "group" with
  | none => simp [createdByVal, hg, specQualify]
  | some g =>
    cases hcb : g.get? "created_by" with
    | none => simp [createdByVal, hg, hcb, specQualify]
    | some w =>
      cases w with
      | str cb =>
        simp only [hcb]
        rw [createdByVal,
          Json.get?_set_self (g.set "created_by" (.str (qualifyId cb domain))) hg]
        show (g.set "created_by" (Json.str (qualifyId cb domain))).get?
            "created_by" = specQualify domain (createdByVal b1)
        rw [Json.get?_set_self (.str (qualifyId cb domain)) hcb]
        simp [createdByVal, hg, hcb, specQualify]
      | null => simp [createdByVal, hg, hcb, specQualify]
      | bool b => simp [createdByVal, hg, hcb, specQualify]
      | num n => simp [createdByVal, hg, hcb, specQualify]
      | arr xs => simp [createdByVal, hg, hcb, specQualify]
      | obj fs => simp [createdByVal, hg, hcb, specQualify]

/-- Claim C7: the federation proxy's response rewriting qualifies every bare
id and keeps every already-qualified id, in `messages[].sender_id` (message
proxy), `members[].user_id` and `group.created_by` (chat proxy). -/
theorem c7_proxy_qualification :
    (∀ body domain, senderVals (qualifySenderIdsInMessages body domain) =
      (senderVals body).map (specQualify domain)) ∧
    (∀ body domain, memberVals (qualifyUserIdsInChatResponse body domain) =
      (memberVals body).map (specQualify domain)) ∧
    (∀ body domain, createdByVal (qualifyUserIdsInChatResponse body domain) =
      specQualify domain (createdByVal body)) := by
  refine ⟨senderVals_qualify, ?_, ?_⟩
  · intro body domain
    rw [qualifyUserIdsInChatResponse, memberVals_createdByPart,
      memberVals_membersPart]
  · intro body domain
    rw [qualifyUserIdsInChatResponse, createdByVal_createdByPart,
      createdByVal_membersPart]

theorem validateFingerprint_cases (fp : String) :
    validateFingerprint fp = .ok () ∨
    validateFingerprint fp = .error (.BadRequest "invalid fingerprint format") := by
  rw [validateFingerprint]
  split_ifs <;> simp

set_option maxHeartbeats 2000000 in
/-- Claim C2 (amended): a POST /keys/{target_fp}/signature request is
accepted only when the primary fingerprint parsed from the authenticated
principal's stored signing key equals the principal's
`primary_key_fingerprint` (and that value is the stored/returned
`signer_fingerprint`); the issuer fingerprint declared inside the submitted
signature packet is never compared against the principal. -/
theorem c2_signer_check (env : PostSigEnv) (fp : String)
    (auth : AuthenticatedUser) (body : PostSigBody) (resp : PostSigResponse)
    (h : postSignature env fp auth body = .ok resp) :
    ∃ sk, env.tryFromKeys auth.signing_public_key = .ok sk ∧
      sk.primary_fingerprint = auth.primary_key_fingerprint ∧
      resp.signer_fingerprint = auth.primary_key_fingerprint := by
  rw [postSignature] at h
  simp only [Bind.bind, Except.bind, orErr, reErr, pure, Except.pure] at h
  repeat (split at h <;> try (cases h))
  cases hk : env.tryFromKeys auth.signing_public_key <;> simp_all

/-- Claim C2, counterexample: the packet's declared issuer fingerprint
differs from the authenticated principal's primary fingerprint, yet the
request is accepted and inserted — the handler never compares the declared
issuer fingerprint. -/
theorem c2_counterexample :
    c2Info.issuer_fingerprint ≠ c2Auth.primary_key_fingerprint ∧
    c2Env.parseCertInfo [1, 2] = .ok c2Info ∧
    postSignature c2Env c2Fp c2Auth c2Body =
      .ok ⟨"sig_c2", c2Fp, c2AuthFp, 0⟩ := by
  refine ⟨by decide, rfl, by rfl⟩

/-- Claim C2 witness: the amended theorem applied to the concrete accepted
run. -/
theorem c2_signer_check_witness :
    postSignature c2Env c2Fp c2Auth c2Body = .ok ⟨"sig_c2", c2Fp, c2AuthFp, 0⟩ ∧
    ∃ sk, c2Env.tryFromKeys c2Auth.signing_public_key = .ok sk ∧
      sk.primary_fingerprint = c2Auth.primary_key_fingerprint ∧
      (PostSigResponse.mk "sig_c2" c2Fp c2AuthFp 0).signer_fingerprint =
        c2Auth.primary_key_fingerprint :=
  ⟨by rfl, c2_signer_check c2Env c2Fp c2Auth c2Body _ (by rfl)⟩

/-- Claim C5: if the parsed auth-nonce timestamp is more than one hour away
from now, the authenticator rejects with Unauthorized (401); and if the
parsed `qr_nonce.time` is more than five minutes away from now, the WoT
ingress handler rejects with BadRequest (400). -/
theorem c5_timestamp_windows :
    (∀ (parseT : String → Option Int) (now : Int) (nonce : AuthNonce)
      (t : Int), parseT nonce.timestamp = some t → (now - t).natAbs > 3600 →
      validateNonceTimestamp parseT now nonce =
        .error (.Unauthorized "nonce timestamp out of range") ∧
      AppError.statusCode (.Unauthorized "nonce timestamp out of range") = 401) ∧
    (∀ (env : PostSigEnv) (fp : String) (auth : AuthenticatedUser)
      (body : PostSigBody) (t : Int), env.parseTime body.qr_time = some t →
      (env.now - t).natAbs > qrNonceWindowSeconds →
      ∃ m, postSignature env fp auth body = .error (.BadRequest m) ∧
        AppError.statusCode (.BadRequest m) = 400) := by
  constructor
  · intro parseT now nonce t hpt hdiff
    refine ⟨?_, rfl⟩
    simp only [validateNonceTimestamp, hpt]
    rw [if_pos hdiff]
  · intro env fp auth body t hpt hdiff
    rcases validateFingerprint_cases fp with hfv | hfv
    · by_cases ht1 : body.signature_type = "certification"
      · by_cases ht2 : body.hash_algo = "sha256"
        · cases hpu : env.parseUuid body.qr_random with
          | none =>
            exact ⟨"invalid qr_nonce.random", by
              simp [postSignature, Bind.bind, Except.bind, orErr, reErr,
                pure, Except.pure, hfv, ht1, ht2, hpu], rfl⟩
          | some u =>
            exact ⟨"qr_nonce timestamp out of range", by
              simp [postSignature, Bind.bind, Except.bind, orErr, reErr,
                pure, Except.pure, hfv, ht1, ht2, hpu, hpt, hdiff], rfl⟩
        · exact ⟨"hash_algo must be sha256", by
            simp [postSignature, Bind.bind, Except.bind, pure, Except.pure,
              hfv, ht1, ht2], rfl⟩
      · exact ⟨"signature_type must be certification", by
          simp [postSignature, Bind.bind, Except.bind, pure, Except.pure,
            hfv, ht1], rfl⟩
    · exact ⟨"invalid fingerprint format", by
        simp [postSignature, Bind.bind, Except.bind, pure, Except.pure,
          hfv], rfl⟩

/-- Claim C5 witness: both window checks applied at concrete inputs — an
auth nonce 4000 s away from now, and a qr nonce 1000 s away from now. -/
theorem c5_timestamp_windows_witness :
    ((fun _ => some 0 : String → Option Int) (AuthNonce.structured "r" "t").timestamp = some 0 ∧
      ((4000 : Int) - 0).natAbs > 3600 ∧
      validateNonceTimestamp (fun _ => some 0) 4000 (.structured "r" "t") =
        .error (.Unauthorized "nonce timestamp out of range")) ∧
    (c5Env.parseTime c2Body.qr_time = some 0 ∧
      (c5Env.now - 0).natAbs > qrNonceWindowSeconds ∧
      ∃ m, postSignature c5Env c2Fp c2Auth c2Body = .error (.BadRequest m) ∧
        AppError.statusCode (.BadRequest m) = 400) :=
  ⟨⟨rfl, by decide,
    (c5_timestamp_windows.1 (fun _ => some 0) 4000 (.structured "r" "t") 0 rfl
      (by decide)).1⟩,
   ⟨rfl, by decide,
    c5_timestamp_windows.2 c5Env c2Fp c2Auth c2Body 0 rfl (by decide)⟩⟩

theorem containsStr {l : List String} {a : String} :
    l.contains a = true ↔ a ∈ l := by
  simp

theorem length_insertStr (x : String) (l : List String) :
    (insertStr x l).length = l.length + 1 := by
  induction l with
  | nil => rfl
  | cons y ys ih =>
    rw [insertStr]
    by_cases h : x ≤ y
    · simp [h]
    · simp [h, ih]

theorem mem_insertStr {x a : String} {l : List String} :
    a ∈ insertStr x l ↔ a = x ∨ a ∈ l := by
  induction l with
  | nil => simp [insertStr]
  | cons y ys ih =>
    rw [insertStr]
    by_cases h : x ≤ y
    · simp [h, or_assoc, or_left_comm]
    · simp [h, ih, or_assoc, or_left_comm]

theorem length_sortStrings (l : List String) :
    (sortStrings l).length = l.length := by
  induction l with
  | nil => rfl
  | cons x xs ih => rw [sortStrings, length_insertStr, ih, List.length_cons]

theorem mem_sortStrings {a : String} {l : List String} :
    a ∈ sortStrings l ↔ a ∈ l := by
  induction l with
  | nil => simp [sortStrings]
  | cons x xs ih => rw [sortStrings, List.mem_cons, mem_insertStr, ih]

theorem mem_candInsert {x fp : String} {c : List String}
    (h : x ∈ candInsert c fp) : x ∈ c ∨ x = fp := by
  rw [candInsert] at h
  by_cases hc : c.contains fp = true
  · rw [if_pos hc] at h
    exact Or.inl h
  · simp only [hc, Bool.false_eq_true, if_false, List.mem_append,
      List.mem_singleton] at h
    exact h

theorem mem_nextCandsOf {dir : EdgeDirection} {fr : List String} {e : WotEdge}
    {c : List String} {x : String} (ht : edgeTouches dir fr e = true)
    (h : x ∈ nextCandsOf dir fr e c) : x ∈ c ∨ x ∈ edgeNbrs dir fr e := by
  cases dir with
  | inbound =>
    rw [nextCandsOf] at h
    rcases mem_candInsert h with h | h
    · exact Or.inl h
    · subst h
      refine Or.inr ?_
      rw [edgeTouches] at ht
      rw [edgeNbrs, if_pos ht]
      exact List.mem_singleton_self _
  | outbound =>
    rw [nextCandsOf] at h
    rcases mem_candInsert h with h | h
    · exact Or.inl h
    · subst h
      refine Or.inr ?_
      rw [edgeTouches] at ht
      rw [edgeNbrs, if_pos ht]
      exact List.mem_singleton_self _
  | both =>
    simp only [nextCandsOf] at h
    rw [edgeNbrs]
    by_cases h1 : fr.contains e.target_fingerprint = true <;>
      by_cases h2 : fr.contains e.signer_fingerprint = true <;>
      simp only [h1, h2, Bool.false_eq_true, if_true, if_false] at h
    · rcases mem_candInsert h with h | h
      · rcases mem_candInsert h with h | h
        · exact Or.inl h
        · subst h
          rw [if_pos h1, if_pos h2]
          exact Or.inr (by simp)
      · subst h
        rw [if_pos h1, if_pos h2]
        exact Or.inr (by simp)
    · rcases mem_candInsert h with h | h
      · exact Or.inl h
      · subst h
        rw [if_pos h1, if_neg h2]
        exact Or.inr (by simp)
    · rcases mem_candInsert h with h | h
      · exact Or.inl h
      · subst h
        rw [if_neg h1, if_pos h2]
        exact Or.inr (by simp)
    · exact Or.inl h

theorem mem_neighborsOf {dir : EdgeDirection} {edges : List WotEdge}
    {s : List String} {x : String} :
    x ∈ neighborsOf dir edges s ↔ ∃ e ∈ edges, x ∈ edgeNbrs dir s e := by
  simp [neighborsOf, List.mem_flatMap]

theorem edgeNbrs_mono {dir : EdgeDirection} {s t : List String} {e : WotEdge}
    {x : String} (hsub : ∀ y ∈ s, y ∈ t) (h : x ∈ edgeNbrs dir s e) :
    x ∈ edgeNbrs dir t e := by
  have hc : ∀ a, s.contains a = true → t.contains a = true := by
    intro a ha
    exact containsStr.mpr (hsub a (containsStr.mp ha))
  cases dir with
  | inbound =>
    rw [edgeNbrs] at h
    by_cases h1 : s.contains e.target_fingerprint = true
    · rw [if_pos h1] at h
      rw [edgeNbrs, if_pos (hc _ h1)]
      exact h
    · rw [if_neg h1] at h
      exact absurd h (List.not_mem_nil x)
  | outbound =>
    rw [edgeNbrs] at h
    by_cases h1 : s.contains e.signer_fingerprint = true
    · rw [if_pos h1] at h
      rw [edgeNbrs, if_pos (hc _ h1)]
      exact h
    · rw [if_neg h1] at h
      exact absurd h (List.not_mem_nil x)
  | both =>
    rw [edgeNbrs] at h
    rw [edgeNbrs]
    rcases List.mem_append.mp h with h | h
    · by_cases h1 : s.contains e.target_fingerprint = true
      · rw [if_pos h1] at h
        exact List.mem_append_left _ (by rw [if_pos (hc _ h1)]; exact h)
      · rw [if_neg h1] at h
        exact absurd h (List.not_mem_nil x)
    · by_cases h1 : s.contains e.signer_fingerprint = true
      · rw [if_pos h1] at h
        exact List.mem_append_right _ (by rw [if_pos (hc _ h1)]; exact h)
      · rw [if_neg h1] at h
        exact absurd h (List.not_mem_nil x)

theorem neighborsOf_mono {dir : EdgeDirection} {edges : List WotEdge}
    {s t : List String} {x : String} (hsub : ∀ y ∈ s, y ∈ t)
    (h : x ∈ neighborsOf dir edges s) : x ∈ neighborsOf dir edges t := by
  obtain ⟨e, he, hx⟩ := mem_neighborsOf.mp h
  exact mem_neighborsOf.mpr ⟨e, he, edgeNbrs_mono hsub hx⟩

theorem ball_succ {dir : EdgeDirection} {edges : List WotEdge} {root : String}
    {k : Nat} {x : String} (h : x ∈ ball dir edges root k) :
    x ∈ ball dir edges root (k + 1) := by
  rw [ball]
  exact List.mem_append_left _ h

theorem ball_mono {dir : EdgeDirection} {edges : List WotEdge} {root : String}
    {k k' : Nat} (hk : k ≤ k') {x : String} (h : x ∈ ball dir edges root k) :
    x ∈ ball dir edges root k' := by
  induction k' with
  | zero => rwa [Nat.le_zero.mp hk] at h
  | succ n ih =>
    rcases Nat.le_succ_iff.mp hk with hk' | hk'
    · exact ball_succ (ih hk')
    · rwa [hk'] at h

theorem ball_nbr {dir : EdgeDirection} {edges : List WotEdge} {root : String}
    {k : Nat} {x : String} (h : x ∈ neighborsOf dir edges (ball dir edges root k)) :
    x ∈ ball dir edges root (k + 1) := by
  rw [ball]
  exact List.mem_append_right _ h

theorem edgeLoop_collected_le (me : Nat) (dir : EdgeDirection)
    (fr : List String) :
    ∀ (es : List WotEdge) (st : EdgeLoopState), st.collected.length ≤ me →
      (edgeLoop me dir fr es st).collected.length ≤ me := by
  intro es
  induction es with
  | nil => intro st h; exact h
  | cons e rest ih =>
    intro st h
    rw [edgeLoop]
    by_cases hs : e.signer_fingerprint = e.target_fingerprint
    · rw [if_pos hs]
      exact ih st h
    · rw [if_neg hs]
      by_cases hr : (!(edgeTouches dir fr e) || st.edgeSeen.contains e.id) = true
      · rw [if_pos hr]
        exact ih st h
      · rw [if_neg hr]
        by_cases hc : st.collected.length ≥ me
        · rw [if_pos hc]
          exact h
        · rw [if_neg hc]
          apply ih
          simp only [List.length_append, List.length_cons, List.length_nil]
          omega

theorem edgeLoop_cands_sub (me : Nat) (dir : EdgeDirection) (fr : List String)
    (edges0 : List WotEdge) :
    ∀ (es : List WotEdge) (st : EdgeLoopState), (∀ e ∈ es, e ∈ edges0) →
      ∀ x ∈ (edgeLoop me dir fr es st).cands,
        x ∈ st.cands ∨ x ∈ neighborsOf dir edges0 fr := by
  intro es
  induction es with
  | nil => intro st _ x hx; exact Or.inl hx
  | cons e rest ih =>
    intro st hsub x hx
    rw [edgeLoop] at hx
    by_cases hs : e.signer_fingerprint = e.target_fingerprint
    · rw [if_pos hs] at hx
      exact ih st (fun e' he' => hsub e' (List.mem_cons_of_mem _ he')) x hx
    · rw [if_neg hs] at hx
      by_cases hr : (!(edgeTouches dir fr e) || st.edgeSeen.contains e.id) = true
      · rw [if_pos hr] at hx
        exact ih st (fun e' he' => hsub e' (List.mem_cons_of_mem _ he')) x hx
      · rw [if_neg hr] at hx
        have ht : edgeTouches dir fr e = true := by
          by_contra hT
          simp only [Bool.not_eq_true] at hT
          exact hr (by simp [hT])
        by_cases hc : st.collected.length ≥ me
        · rw [if_pos hc] at hx
          exact Or.inl hx
        · rw [if_neg hc] at hx
          rcases ih _ (fun e' he' => hsub e' (List.mem_cons_of_mem _ he')) x hx
            with h | h
          · rcases mem_nextCandsOf ht h with h | h
            · exact Or.inl h
            · exact Or.inr (mem_neighborsOf.mpr
                ⟨e, hsub e (List.mem_cons_self _ _), h⟩)
          · exact Or.inr h

theorem candLoop_visited_le (mn : Nat) :
    ∀ (cs : List String) (st : CandLoopState), st.visited.length ≤ mn →
      (candLoop mn cs st).visited.length ≤ mn := by
  intro cs
  induction cs with
  | nil => intro st h; exact h
  | cons fp rest ih =>
    intro st h
    rw [candLoop]
    by_cases hv : st.visited.contains fp = true
    · rw [if_pos hv]
      exact ih st h
    · rw [if_neg hv]
      by_cases hn : st.visited.length ≥ mn
      · rw [if_pos hn]
        exact h
      · rw [if_neg hn]
        apply ih
        simp only [List.length_append, List.length_cons, List.length_nil]
        omega

theorem candLoop_visited_sub (mn : Nat) :
    ∀ (cs : List String) (st : CandLoopState) (x : String),
      x ∈ (candLoop mn cs st).visited → x ∈ st.visited ∨ x ∈ cs := by
  intro cs
  induction cs with
  | nil => intro st x hx; exact Or.inl hx
  | cons fp rest ih =>
    intro st x hx
    rw [candLoop] at hx
    by_cases hv : st.visited.contains fp = true
    · rw [if_pos hv] at hx
      rcases ih st x hx with h | h
      · exact Or.inl h
      · exact Or.inr (List.mem_cons_of_mem _ h)
    · rw [if_neg hv] at hx
      by_cases hn : st.visited.length ≥ mn
      · rw [if_pos hn] at hx
        exact Or.inl hx
      · rw [if_neg hn] at hx
        rcases ih _ x hx with h | h
        · rcases List.mem_append.mp h with h | h
          · exact Or.inl h
          · rw [List.mem_singleton] at h
            exact Or.inr (h ▸ List.mem_cons_self _ _)
        · exact Or.inr (List.mem_cons_of_mem _ h)

theorem candLoop_visited_mono (mn : Nat) :
    ∀ (cs : List String) (st : CandLoopState) (x : String),
      x ∈ st.visited → x ∈ (candLoop mn cs st).visited := by
  intro cs
  induction cs with
  | nil => intro st x hx; exact hx
  | cons fp rest ih =>
    intro st x hx
    rw [candLoop]
    by_cases hv : st.visited.contains fp = true
    · rw [if_pos hv]
      exact ih st x hx
    · rw [if_neg hv]
      by_cases hn : st.visited.length ≥ mn
      · rw [if_pos hn]
        exact hx
      · rw [if_neg hn]
        exact ih _ x (List.mem_append_left _ hx)

theorem candLoop_frontier_sub (mn : Nat) :
    ∀ (cs : List String) (st : CandLoopState),
      (∀ y ∈ st.nextFrontier, y ∈ st.visited) →
      ∀ x ∈ (candLoop mn cs st).nextFrontier,
        x ∈ (candLoop mn cs st).visited := by
  intro cs
  induction cs with
  | nil => intro st h x hx; exact h x hx
  | cons fp rest ih =>
    intro st h x hx
    rw [candLoop] at hx ⊢
    by_cases hv : st.visited.contains fp = true
    · rw [if_pos hv] at hx ⊢
      exact ih st h x hx
    · rw [if_neg hv] at hx ⊢
      by_cases hn : st.visited.length ≥ mn
      · rw [if_pos hn] at hx ⊢
        exact h x hx
      · rw [if_neg hn] at hx ⊢
        refine ih _ ?_ x hx
        intro y hy
        rcases List.mem_append.mp hy with hy | hy
        · exact List.mem_append_left _ (h y hy)
        · exact List.mem_append_right _ hy

theorem getEdgesForFrontier_sub {edges0 : List WotEdge} {fr : List String}
    {dir : EdgeDirection} {e : WotEdge}
    (h : e ∈ getEdgesForFrontier edges0 fr dir) : e ∈ edges0 := by
  rw [getEdgesForFrontier] at h
  by_cases hf : fr.isEmpty = true
  · rw [if_pos hf] at h
    exact absurd h (List.not_mem_nil e)
  · rw [if_neg hf] at h
    exact List.mem_of_mem_filter h

theorem bfsLoop_inv (dir : EdgeDirection) (edges0 : List WotEdge)
    (root : String) (mn me : Nat) (elapsed : Nat → Bool) :
    ∀ (fuel : Nat) (st : BfsState), BfsInv dir edges0 root mn me st →
      BfsInv dir edges0 root mn me
        (bfsLoop edges0 dir mn me elapsed fuel st) ∧
      (bfsLoop edges0 dir mn me elapsed fuel st).lastDepth ≤
        st.lastDepth + fuel := by
  intro fuel
  induction fuel with
  | zero => intro st h; exact ⟨h, Nat.le_add_right _ _⟩
  | succ n ih =>
    intro st h
    obtain ⟨h1, h2, h3, h4, h5⟩ := h
    rw [bfsLoop]
    by_cases hf : st.frontier.isEmpty = true
    · rw [if_pos hf]
      exact ⟨⟨h1, h2, h3, h4, h5⟩, Nat.le_add_right _ _⟩
    · rw [if_neg hf]
      by_cases hb : elapsed st.checkIdx = true
      · rw [if_pos hb]
        refine ⟨⟨h1, h2, h3, h4, ?_⟩, Nat.le_add_right _ _⟩
        simp
      · rw [if_neg hb]
        simp only []
        have hedges : ∀ e ∈ getEdgesForFrontier edges0 st.frontier dir,
            e ∈ edges0 := fun e he => getEdgesForFrontier_sub he
        by_cases hcap : (edgeLoop me dir st.frontier
            (getEdgesForFrontier edges0 st.frontier dir)
            ⟨st.edgeSeen, st.collected, [], false⟩).capped = true
        · rw [if_pos hcap]
          refine ⟨⟨h1, edgeLoop_collected_le me dir st.frontier _ _ h2, h3,
            fun x hx => ball_succ (h4 x hx), by simp⟩, ?_⟩
          exact Nat.add_le_add_left (Nat.le_add_left 1 n) _
        · rw [if_neg hcap]
          have hinv2 : BfsInv dir edges0 root mn me
              { st with
                checkIdx := st.checkIdx + 1
                lastDepth := st.lastDepth + 1
                edgeSeen := (edgeLoop me dir st.frontier
                  (getEdgesForFrontier edges0 st.frontier dir)
                  ⟨st.edgeSeen, st.collected, [], false⟩).edgeSeen
                collected := (edgeLoop me dir st.frontier
                  (getEdgesForFrontier edges0 st.frontier dir)
                  ⟨st.edgeSeen, st.collected, [], false⟩).collected
                visited := (candLoop mn (edgeLoop me dir st.frontier
                  (getEdgesForFrontier edges0 st.frontier dir)
                  ⟨st.edgeSeen, st.collected, [], false⟩).cands
                  ⟨st.visited, [], false⟩).visited
                frontier := (candLoop mn (edgeLoop me dir st.frontier
                  (getEdgesForFrontier edges0 st.frontier dir)
                  ⟨st.edgeSeen, st.collected, [], false⟩).cands
                  ⟨st.visited, [], false⟩).nextFrontier
                nodeCapped := st.nodeCapped || (candLoop mn (edgeLoop me dir
                  st.frontier (getEdgesForFrontier edges0 st.frontier dir)
                  ⟨st.edgeSeen, st.collected, [], false⟩).cands
                  ⟨st.visited, [], false⟩).capped
                truncated := st.truncated || (candLoop mn (edgeLoop me dir
                  st.frontier (getEdgesForFrontier edges0 st.frontier dir)
                  ⟨st.edgeSeen, st.collected, [], false⟩).cands
                  ⟨st.visited, [], false⟩).capped } := by
            refine ⟨candLoop_visited_le mn _ _ h1,
              edgeLoop_collected_le me dir st.frontier _ _ h2,
              candLoop_frontier_sub mn _ _ (by intro y hy; cases hy), ?_, ?_⟩
            · intro x hx
              rcases candLoop_visited_sub mn _ _ x hx with hx' | hx'
              · exact ball_succ (h4 x hx')
              · rcases edgeLoop_cands_sub me dir st.frontier edges0 _ _
                  hedges x hx' with hx'' | hx''
                · exact absurd hx'' (List.not_mem_nil x)
                · refine ball_nbr (neighborsOf_mono ?_ hx'')
                  intro y hy
                  exact h4 y (h3 y hy)
            · dsimp only
              rw [h5]
              simp [Bool.or_assoc, Bool.or_comm, Bool.or_left_comm]
          obtain ⟨ha, hd⟩ := ih _ hinv2
          refine ⟨ha, ?_⟩
          refine le_trans hd ?_
          simp only []
          omega

theorem clampNat_pos (x hi : Nat) (h : 1 ≤ hi) : 1 ≤ clampNat x 1 hi := by
  rw [clampNat]
  split_ifs <;> omega

theorem clampNat_eq (x lo hi : Nat) (h : lo ≤ hi) :
    clampNat x lo hi = min (max x lo) hi := by
  rw [clampNat]
  split_ifs <;> omega

theorem runLocal_bfs_inv (db : WotDb) (fp : String) (query : SignatureQuery)
    (elapsed : Nat → Bool) (dir : EdgeDirection) :
    BfsInv dir db.edges fp
      (clampNat (query.max_nodes.getD defaultMaxNodes) 1 maxMaxNodes)
      (clampNat (query.max_edges.getD defaultMaxEdges) 1 maxMaxEdges)
      (bfsLoop db.edges dir
        (clampNat (query.max_nodes.getD defaultMaxNodes) 1 maxMaxNodes)
        (clampNat (query.max_edges.getD defaultMaxEdges) 1 maxMaxEdges)
        elapsed (clampNat (query.max_depth.getD defaultMaxDepth) 1 maxMaxDepth)
        ⟨[fp], [fp], [], [], false, false, false, false, 0, 0⟩) ∧
    (bfsLoop db.edges dir
        (clampNat (query.max_nodes.getD defaultMaxNodes) 1 maxMaxNodes)
        (clampNat (query.max_edges.getD defaultMaxEdges) 1 maxMaxEdges)
        elapsed (clampNat (query.max_depth.getD defaultMaxDepth) 1 maxMaxDepth)
        ⟨[fp], [fp], [], [], false, false, false, false, 0, 0⟩).lastDepth ≤
      clampNat (query.max_depth.getD defaultMaxDepth) 1 maxMaxDepth := by
  have hinit : BfsInv dir db.edges fp
      (clampNat (query.max_nodes.getD defaultMaxNodes) 1 maxMaxNodes)
      (clampNat (query.max_edges.getD defaultMaxEdges) 1 maxMaxEdges)
      ⟨[fp], [fp], [], [], false, false, false, false, 0, 0⟩ := by
    refine ⟨?_, Nat.zero_le _, ?_, ?_, rfl⟩
    · exact clampNat_pos _ _ (by rw [maxMaxNodes]; omega)
    · intro x hx
      exact hx
    · intro x hx
      exact hx
  have h := bfsLoop_inv dir db.edges fp
    (clampNat (query.max_nodes.getD defaultMaxNodes) 1 maxMaxNodes)
    (clampNat (query.max_edges.getD defaultMaxEdges) 1 maxMaxEdges) elapsed
    (clampNat (query.max_depth.getD defaultMaxDepth) 1 maxMaxDepth)
    ⟨[fp], [fp], [], [], false, false, false, false, 0, 0⟩ hinit
  exact ⟨h.1, by simpa using h.2⟩

theorem deletedFps_spec {deleted fps : List String} {s : String} :
    (getDeletedFingerprints deleted fps).contains s = true ↔
      deleted.contains s = true ∧ fps.contains s = true := by
  simp [getDeletedFingerprints, List.mem_filter]

/-- Claim C3: for a locally served WoT graph read, the response's echoed
query equals the clamped parameters (`max_depth` to `[1,4]` default 2,
`max_nodes` to `[1,1000]` default 200, `max_edges` to `[1,3000]` default
500), the node and edge counts respect those caps, every returned node lies
within `max_depth` BFS layers of the root, and `meta.truncated` holds iff a
depth/node/edge cap triggered or a performed wall-clock budget check
expired. -/
theorem c3_bfs_bounds :
    ∀ (db : WotDb) (fingerprint : String) (query : SignatureQuery)
      (elapsed : Nat → Bool),
      match getSignaturesLocal db fingerprint query elapsed,
          parseDirection (query.direction.getD "inbound") with
      | .ok res, some dir =>
        res.response.query.max_depth = min (max (query.max_depth.getD 2) 1) 4 ∧
        res.response.query.max_nodes =
          min (max (query.max_nodes.getD 200) 1) 1000 ∧
        res.response.query.max_edges =
          min (max (query.max_edges.getD 500) 1) 3000 ∧
        res.response.nodes.length ≤ min (max (query.max_nodes.getD 200) 1) 1000 ∧
        res.response.edges.length ≤ min (max (query.max_edges.getD 500) 1) 3000 ∧
        (res.response.nodes.all fun n =>
          (ball dir db.edges fingerprint
            (min (max (query.max_depth.getD 2) 1) 4)).contains n.fingerprint) =
          true ∧
        res.response.meta.truncated =
          (res.response.meta.limits_applied.depth_capped ||
            (res.response.meta.limits_applied.node_capped ||
              (res.response.meta.limits_applied.edge_capped || res.budgetHit)))
      | _, _ => True := by
  intro db fingerprint query elapsed
  cases hd : parseDirection (query.direction.getD "inbound") with
  | none => simp [getSignaturesLocal, hd]
  | some dir =>
    simp only [getSignaturesLocal, hd]
    obtain ⟨⟨hv1, hc1, hf1, hb1, ht1⟩, hld⟩ :=
      runLocal_bfs_inv db fingerprint query elapsed dir
    simp only [runLocal]
    refine ⟨?_, ?_, ?_, ?_, ?_, ?_, ?_⟩
    · rw [clampNat_eq _ _ _ (by rw [maxMaxDepth]; omega), defaultMaxDepth,
        maxMaxDepth]
    · rw [clampNat_eq _ _ _ (by rw [maxMaxNodes]; omega), defaultMaxNodes,
        maxMaxNodes]
    · rw [clampNat_eq _ _ _ (by rw [maxMaxEdges]; omega), defaultMaxEdges,
        maxMaxEdges]
    · rw [← clampNat_eq (query.max_nodes.getD 200) 1 1000 (by decide)]
      rw [List.length_map]
      refine le_trans (List.length_filter_le _ _) ?_
      rw [length_sortStrings]
      exact hv1
    · rw [← clampNat_eq (query.max_edges.getD 500) 1 3000 (by decide)]
      rw [List.length_map]
      exact le_trans (List.length_filter_le _ _) hc1
    · rw [List.all_eq_true]
      intro n hn
      obtain ⟨fp, hfp, hfpn⟩ := List.mem_map.mp hn
      have hmem : fp ∈ sortStrings (bfsLoop db.edges dir
          (clampNat (query.max_nodes.getD defaultMaxNodes) 1 maxMaxNodes)
          (clampNat (query.max_edges.getD defaultMaxEdges) 1 maxMaxEdges)
          elapsed
          (clampNat (query.max_depth.getD defaultMaxDepth) 1 maxMaxDepth)
          ⟨[fingerprint], [fingerprint], [], [], false, false, false, false,
            0, 0⟩).visited := List.mem_of_mem_filter hfp
      have hball := ball_mono hld (hb1 fp (mem_sortStrings.mp hmem))
      rw [← hfpn]
      refine containsStr.mpr ?_
      rw [← clampNat_eq (query.max_depth.getD 2) 1 4 (by decide)]
      exact hball
    · rw [ht1]
      simp [Bool.or_assoc, Bool.or_comm, Bool.or_left_comm]

/-- Claim C8 (amended): after a user X is tombstoned, a locally served graph
read returns no node with X's fingerprint; a returned edge never has a
tombstoned endpoint that is among the BFS-visited node fingerprints — but an
endpoint that was kept out of the node set (for example by the node cap) is
not checked against tombstones, so such an edge can still carry X's
fingerprint. -/
theorem c8_tombstone_filter :
    ∀ (db : WotDb) (fingerprint : String) (query : SignatureQuery)
      (elapsed : Nat → Bool),
      match getSignaturesLocal db fingerprint query elapsed with
      | .ok res =>
        (res.response.nodes.all fun n =>
          !(db.deleted.contains n.fingerprint)) = true ∧
        (res.response.edges.all fun e =>
          (!(res.visitedFps.contains e.from_fingerprint) ||
            !(db.deleted.contains e.from_fingerprint)) &&
          (!(res.visitedFps.contains e.to_fingerprint) ||
            !(db.deleted.contains e.to_fingerprint))) = true
      | .error _ => True := by
  intro db fingerprint query elapsed
  cases hd : parseDirection (query.direction.getD "inbound") with
  | none => simp [getSignaturesLocal, hd]
  | some dir =>
    simp only [getSignaturesLocal, hd]
    simp only [runLocal]
    constructor
    · rw [List.all_eq_true]
      intro n hn
      obtain ⟨fp, hfp, hfpn⟩ := List.mem_map.mp hn
      obtain ⟨hfp1, hfp2⟩ := List.mem_filter.mp hfp
      rw [← hfpn]
      simp only [Bool.not_eq_eq_eq_not, Bool.not_true]
      by_contra hdel
      simp only [Bool.not_eq_false] at hdel
      have : (getDeletedFingerprints db.deleted (sortStrings (bfsLoop db.edges
          dir (clampNat (query.max_nodes.getD defaultMaxNodes) 1 maxMaxNodes)
          (clampNat (query.max_edges.getD defaultMaxEdges) 1 maxMaxEdges)
          elapsed
          (clampNat (query.max_depth.getD defaultMaxDepth) 1 maxMaxDepth)
          ⟨[fingerprint], [fingerprint], [], [], false, false, false, false,
            0, 0⟩).visited)).contains fp = true :=
        deletedFps_spec.mpr ⟨hdel, containsStr.mpr hfp1⟩
      rw [this] at hfp2
      simp at hfp2
    · rw [List.all_eq_true]
      intro er her
      obtain ⟨e, he, hee⟩ := List.mem_map.mp her
      obtain ⟨he1, he2⟩ := List.mem_filter.mp he
      simp only [Bool.and_eq_true] at he2
      rw [← hee]
      simp only [Bool.and_eq_true, Bool.or_eq_true]
      constructor
      · by_cases hvf : (sortStrings (bfsLoop db.edges dir
            (clampNat (query.max_nodes.getD defaultMaxNodes) 1 maxMaxNodes)
            (clampNat (query.max_edges.getD defaultMaxEdges) 1 maxMaxEdges)
            elapsed
            (clampNat (query.max_depth.getD defaultMaxDepth) 1 maxMaxDepth)
            ⟨[fingerprint], [fingerprint], [], [], false, false, false,
              false, 0, 0⟩).visited).contains e.signer_fingerprint = true
        · refine Or.inr ?_
          by_contra hdel
          have hdel2 : db.deleted.contains e.signer_fingerprint = true := by
            revert hdel
            cases db.deleted.contains e.signer_fingerprint <;> simp
          have := deletedFps_spec.mpr ⟨hdel2, hvf⟩
          rw [this] at he2
          simp at he2
        · exact Or.inl (by simp [Bool.not_eq_true] at hvf ⊢; exact hvf)
      · by_cases hvf : (sortStrings (bfsLoop db.edges dir
            (clampNat (query.max_nodes.getD defaultMaxNodes) 1 maxMaxNodes)
            (clampNat (query.max_edges.getD defaultMaxEdges) 1 maxMaxEdges)
            elapsed
            (clampNat (query.max_depth.getD defaultMaxDepth) 1 maxMaxDepth)
            ⟨[fingerprint], [fingerprint], [], [], false, false, false,
              false, 0, 0⟩).visited).contains e.target_fingerprint = true
        · refine Or.inr ?_
          by_contra hdel
          have hdel2 : db.deleted.contains e.target_fingerprint = true := by
            revert hdel
            cases db.deleted.contains e.target_fingerprint <;> simp
          have := deletedFps_spec.mpr ⟨hdel2, hvf⟩
          rw [this] at he2
          simp at he2
        · exact Or.inl (by simp [Bool.not_eq_true] at hvf ⊢; exact hvf)

/-- Claim C8, counterexample: with the node cap at 1, the signer `c8X` never
enters the visited node set, so the tombstone filter misses it and the
response still contains the edge incident to the deleted user's
fingerprint. -/
theorem c8_counterexample :
    c8Db.deleted.contains c8X = true ∧
    (getSignaturesLocal c8Db c8Root c8Query (fun _ => false)).toOption.map
      (fun r => r.response.edges.map (fun e => e.from_fingerprint)) =
      some [c8X] := by
  exact ⟨rfl, rfl⟩

/-- Claim C9 witness: the amended theorem applied at concrete local parts and
a concrete qualified id. -/
theorem c9_local_validation_witness :
    ((validateLocalPart "alice").isOk = specLocalOk "alice" ∧
      specLocalOk "alice" = true ∧ specLocalOk "a..b" = false) ∧
    (containsAt "alice@x" = true ∧
      (UserId.validateFull "alice@x").isOk =
        (validateLocalPart (localPartOf "alice@x")).isOk) :=
  ⟨⟨c9_local_validation.1 "alice", by decide, by decide⟩,
   ⟨by decide, c9_local_validation.2 "alice@x" (by decide)⟩⟩

end Xrypton

